import Mathlib

/-
Verification development for the plags_scripts exercise-master build pipeline
(`build_autograde.py`, `ipynb_metadata.py`, `release_as_is.py`).

The Python sources are shallowly embedded: notebook cells are values of `Cell`,
Python strings are Lean `String`s (lists of unicode scalar values), Python
`dict`s are insertion-ordered association lists, fallible code (assertions,
indexing errors, `TypeError`s) is modelled with `Option`.  The small regular
expressions used by the scripts are embedded as deterministic character-list
matchers that follow the backtracking behaviour of Python's `re` engine
(leftmost match, greedy/lazy quantifiers) for the concrete patterns involved.
-/

namespace Plags

/-! ### Python string primitives -/

/-- Whitespace test used by Python's `str.strip`, `str.isspace` and the regex
class `\s` (the sets coincide on every character these scripts can meet). -/
def isPySpace (c : Char) : Bool :=
  c = ' ' || c = '\t' || c = '\n' || c = '\x0b' || c = '\x0c' || c = '\r' ||
  c = '\x1c' || c = '\x1d' || c = '\x1e' || c = '\x1f' || c = '\x85' ||
  c.toNat = 0xa0 || c.toNat = 0x1680 ||
  (0x2000 ≤ c.toNat && c.toNat ≤ 0x200a) ||
  c.toNat = 0x2028 || c.toNat = 0x2029 || c.toNat = 0x202f ||
  c.toNat = 0x205f || c.toNat = 0x3000

/-- Line-break characters recognized by Python's `str.splitlines`
(`\r\n` is additionally treated as a single break). -/
def isLineBreak (c : Char) : Bool :=
  c = '\n' || c = '\r' || c = '\x0b' || c = '\x0c' ||
  c = '\x1c' || c = '\x1d' || c = '\x1e' || c = '\x85' ||
  c.toNat = 0x2028 || c.toNat = 0x2029

/-- Characterwise model of Python's `str.strip()` on a character list. -/
def stripChars (l : List Char) : List Char :=
  ((l.dropWhile isPySpace).reverse.dropWhile isPySpace).reverse

/-- Model of Python's `str.strip()`. -/
def pyStrip (s : String) : String :=
  ⟨stripChars s.data⟩

/-- Worker for `str.splitlines()` without keepends; `acc` holds the current
line reversed. -/
def splitLinesAux : List Char → List Char → List String
  | acc, [] => if acc.isEmpty then [] else [⟨acc.reverse⟩]
  | acc, '\r' :: '\n' :: rest => ⟨acc.reverse⟩ :: splitLinesAux [] rest
  | acc, c :: rest =>
    if isLineBreak c then ⟨acc.reverse⟩ :: splitLinesAux [] rest
    else splitLinesAux (c :: acc) rest

/-- Model of Python's `str.splitlines()`. -/
def pySplitLines (s : String) : List String :=
  splitLinesAux [] s.data

/-- Worker for `str.splitlines(keepends=True)`. -/
def splitLinesKeepAux : List Char → List Char → List String
  | acc, [] => if acc.isEmpty then [] else [⟨acc.reverse⟩]
  | acc, '\r' :: '\n' :: rest => ⟨(('\n' :: '\r' :: acc).reverse)⟩ :: splitLinesKeepAux [] rest
  | acc, c :: rest =>
    if isLineBreak c then ⟨((c :: acc).reverse)⟩ :: splitLinesKeepAux [] rest
    else splitLinesKeepAux (c :: acc) rest

/-- Model of Python's `str.splitlines(keepends=True)`. -/
def pySplitLinesKeep (s : String) : List String :=
  splitLinesKeepAux [] s.data

/-- Model of Python's `''.join(lines)`. -/
def pyJoin (lines : List String) : String :=
  ⟨(lines.map String.data).flatten⟩

/-- Model of Python's `'\n'.join(lines)`. -/
def pyJoinNL (lines : List String) : String :=
  ⟨(List.intersperse (("\n").data) (lines.map String.data)).flatten⟩

/-- Boolean prefix test on character lists (`pat` against the front of `l`). -/
def hasPfx : List Char → List Char → Bool
  | [], _ => true
  | _ :: _, [] => false
  | p :: ps, c :: cs => p = c && hasPfx ps cs

/-- Model of Python's `str.startswith`. -/
def pyStartsWith (s pat : String) : Bool :=
  hasPfx pat.data s.data

/-! ### The cell model -/

/-- Notebook cell kinds delivered by `ipynb_util.normalized_cells`
(the external container collaborator). -/
inductive CellType where
  | code
  | markdown
  | raw
deriving DecidableEq, Repr

/-- String value of the external `NotebookCellType` enum members, as stored in
the `cell_type` entry of a raw ipynb cell. -/
def CellType.value : CellType → String
  | .code => "code"
  | .markdown => "markdown"
  | .raw => "raw"

/-- Embedding of the `Cell` namedtuple of `build_autograde.py`:
a cell kind plus its source text. -/
structure Cell where
  cellType : CellType
  source : String
deriving DecidableEq, Repr

/-! ### The field-marker pattern

`split_cells` collects the occurrences of `\*\*\*CONTENT_TYPE:\s*(.+?)\*\*\*`
in a markdown cell with `re.finditer`.  The scanner below reproduces the
Python engine on exactly this pattern: scan for the leftmost occurrence of the
literal `***CONTENT_TYPE:`, then let `\s*` backtrack greedily while the lazy
group `(.+?)` (one or more non-newline characters, shortest first) must be
followed by the literal `***`; matching resumes after the consumed text. -/

/-- Literal head `***CONTENT_TYPE:` of the marker pattern. -/
def ctLit : List Char :=
  ("***CONTENT_TYPE:").data

/-- Literal closing `***` of the marker pattern. -/
def starsLit : List Char :=
  ("***").data

/-- Lazy search for `(.+?)\*\*\*`: grow the group one character at a time
(rejecting newlines, which `.` does not match) until `***` follows; returns
the captured group and the text after the closing `***`. -/
def lazyGroup : List Char → List Char → Option (List Char × List Char)
  | _, [] => none
  | acc, c :: rest =>
    if c = '\n' then none
    else if hasPfx starsLit rest then some (acc ++ [c], rest.drop 3)
    else lazyGroup (acc ++ [c]) rest

/-- Greedy backtracking for `\s*`: try consuming `k` whitespace characters,
largest `k` first, before handing over to the lazy group. -/
def wsBacktrack : Nat → List Char → Option (List Char × List Char)
  | 0, l => lazyGroup [] l
  | k + 1, l =>
    match lazyGroup [] (l.drop (k + 1)) with
    | some r => some r
    | none => wsBacktrack k l

/-- Match of `\s*(.+?)\*\*\*` against the text following `***CONTENT_TYPE:`. -/
def markerTail (l : List Char) : Option (List Char × List Char) :=
  wsBacktrack (l.takeWhile isPySpace).length l

theorem lazyGroup_length : ∀ acc l g r, lazyGroup acc l = some (g, r) →
    r.length < l.length := by
  intro acc l
  induction l generalizing acc with
  | nil => intro g r h; simp [lazyGroup] at h
  | cons c rest ih =>
    intro g r h
    simp only [lazyGroup] at h
    split at h
    · exact absurd h (by simp)
    · split at h
      · simp only [Option.some.injEq, Prod.mk.injEq] at h
        have : r.length ≤ rest.length := by
          rw [← h.2]; simpa using List.length_drop_le 3 rest
        simp only [List.length_cons]; omega
      · have := ih _ _ _ h
        simp only [List.length_cons]; omega

theorem wsBacktrack_length : ∀ k l g r, wsBacktrack k l = some (g, r) →
    r.length < l.length := by
  intro k
  induction k with
  | zero => intro l g r h; exact lazyGroup_length _ _ _ _ h
  | succ k ih =>
    intro l g r h
    simp only [wsBacktrack] at h
    split at h
    · rename_i heq
      cases h
      have := lazyGroup_length _ _ _ _ heq
      have : (l.drop (k + 1)).length ≤ l.length := by
        simpa using List.length_drop_le (k + 1) l
      omega
    · exact ih _ _ _ h

theorem markerTail_length (l g r : List Char) (h : markerTail l = some (g, r)) :
    r.length < l.length :=
  wsBacktrack_length _ _ _ _ h

/-- Fuel-bounded scanner for the marker pattern; by `markerTail_length` every
match consumes at least one character, so `l.length` units of fuel are enough
for a complete scan and the fuel never runs out in `markerScan`. -/
def markerScanFuel : Nat → List Char → List String
  | 0, _ => []
  | _ + 1, [] => []
  | fuel + 1, c :: cs =>
    if hasPfx ctLit (c :: cs) then
      match markerTail ((c :: cs).drop 16) with
      | some (g, r) => (⟨g⟩ : String) :: markerScanFuel fuel r
      | none => markerScanFuel fuel cs
    else markerScanFuel fuel cs

/-- All group captures of `re.finditer` for the marker pattern, left to right,
non-overlapping. -/
def markerScan (l : List Char) : List String :=
  markerScanFuel l.length l

/-- Captured field names of all marker occurrences in a markdown source
(`list(re.finditer(CONTENT_TYPE_REGEX, source))`, groups extracted). -/
def markerMatches (s : String) : List String :=
  markerScan s.data

/-! ### The Segmenter: `split_cells` -/

/-- Insertion-ordered dictionary update, as for a Python `dict`:
an existing key keeps its position and gets the new value, a new key is
appended.  Keys are `Option String` because `split_cells` can store its final
accumulator under Python's `None`. -/
def dictInsert (res : List (Option String × List Cell)) (k : Option String)
    (v : List Cell) : List (Option String × List Cell) :=
  match res with
  | [] => [(k, v)]
  | (k', v') :: t => if k' = k then (k, v) :: t else (k', v') :: dictInsert t k v

/-- Loop of `split_cells` over the normalized `(cell_type, source)` sequence;
`ck` is `current_key`, `acc` is `cells`, `res` is `results`.  `none` models an
`AssertionError` escaping the loop. -/
def splitCellsLoop : Option String → List Cell → List (Option String × List Cell) →
    List (CellType × String) → Option (List (Option String × List Cell))
  | ck, acc, res, [] => some (dictInsert res ck acc)
  | ck, acc, res, (t, s) :: rest =>
    if pyStrip s = ("") then splitCellsLoop ck acc res rest
    else if t = CellType.code || t = CellType.raw then
      match ck with
      | none => none
      | some _ => splitCellsLoop ck (acc ++ [⟨t, s⟩]) res rest
    else
      match markerMatches s with
      | [] =>
        match ck with
        | none => none
        | some _ => splitCellsLoop ck (acc ++ [⟨t, s⟩]) res rest
      | [k] =>
        match ck with
        | none => splitCellsLoop (some k) acc res rest
        | some key => splitCellsLoop (some k) [] (dictInsert res (some key) acc) rest
      | _ :: _ :: _ => none

/-- Embedding of `split_cells` (build_autograde.py:145-174) on an already
normalized cell sequence. -/
def splitCells (raw : List (CellType × String)) :
    Option (List (Option String × List Cell)) :=
  splitCellsLoop none [] [] raw

/-! ### Markdown headings and file code cells -/

/-- Model of `re.fullmatch(r'#+\\s+(.*)', line)` (build_autograde.py:200-202):
a maximal run of `#` (at least one), a maximal run of whitespace (at least
one), then the captured remainder, which `.` forbids to contain a newline. -/
def matchHeading (s : String) : Option String :=
  let l := s.data
  let a := (l.takeWhile (fun c => c = '#')).length
  if a = 0 then none
  else
    let rest := l.drop a
    let b := (rest.takeWhile isPySpace).length
    if b = 0 then none
    else
      let tl := rest.drop b
      if tl.contains '\n' then none else some ⟨tl⟩

/-- Model of `re.fullmatch(r'#+\\s+([^/]{1,255})', line)`
(build_autograde.py:136-137).  After the maximal `#` run and the maximal
whitespace run, the class repetition must consume the remainder exactly, so
the match succeeds iff that remainder has between 1 and 255 characters and no
`/`; when the remainder is empty, `\\s+` backtracks by one character and the
last whitespace character itself is captured (this needs at least two
whitespace characters). -/
def matchFileHeading (s : String) : Option String :=
  let l := s.data
  let a := (l.takeWhile (fun c => c = '#')).length
  if a = 0 then none
  else
    let rest := l.drop a
    let b := (rest.takeWhile isPySpace).length
    if b = 0 then none
    else
      let tl := rest.drop b
      if tl.length = 0 then
        if 2 ≤ b then some ⟨rest.drop (b - 1)⟩ else none
      else if tl.length ≤ 255 && !(tl.contains '/') then some ⟨tl⟩
      else none

/-- Embedding of `split_file_code_cell` (build_autograde.py:133-139):
the failing `assert`s (non-code cell, missing first line, unmatched heading)
become `none`; on success the extracted filename, the trimmed
newline-terminated remainder and the original cell are returned. -/
def splitFileCodeCell (cell : Cell) : Option (String × String × Cell) :=
  if cell.cellType ≠ CellType.code then none
  else
    match pySplitLinesKeep (pyStrip cell.source) with
    | [] => none
    | l0 :: restLines =>
      match matchFileHeading (pyStrip l0) with
      | none => none
      | some name => some (name, pyStrip (pyJoin restLines) ++ ("\n"), cell)

/-! ### The Field Schema -/

/-- Embedding of the `FieldKey` enum. -/
inductive FieldKey where
  | WARNING
  | CONTENT
  | STUDENT_CODE_CELL
  | EXPLANATION
  | ANSWER_EXAMPLES
  | STUDENT_TESTS
  | SYSTEM_TEST_CASES
  | SYSTEM_TEST_CASES_EXECUTE_CELL
  | SYSTEM_TEST_SETTING
deriving DecidableEq, Repr

/-- Embedding of the `FieldProperty` flag set as one boolean per flag. -/
structure FieldProps where
  single : Bool
  list : Bool
  optional : Bool
  markdownHeaded : Bool
  file : Bool
  code : Bool
deriving DecidableEq, Repr

/-- Flag assignment of build_autograde.py:63-71 (`FieldKey.*.properties`). -/
def fieldProperties : FieldKey → FieldProps
  | .WARNING => ⟨false, false, false, false, false, false⟩
  | .CONTENT => ⟨false, true, false, true, false, false⟩
  | .STUDENT_CODE_CELL => ⟨true, false, false, false, false, true⟩
  | .EXPLANATION => ⟨false, true, true, true, false, false⟩
  | .ANSWER_EXAMPLES => ⟨false, true, true, false, false, false⟩
  | .STUDENT_TESTS => ⟨false, true, true, false, false, false⟩
  | .SYSTEM_TEST_CASES => ⟨false, true, false, false, true, false⟩
  | .SYSTEM_TEST_CASES_EXECUTE_CELL => ⟨true, false, false, false, false, true⟩
  | .SYSTEM_TEST_SETTING => ⟨true, false, false, false, false, false⟩

/-- Model of `getattr(FieldKey, field_key)`: the nine member names resolve,
anything else raises `AttributeError` (`none`). -/
def parseFieldKey (s : String) : Option FieldKey :=
  if s = ("WARNING") then some .WARNING
  else if s = ("CONTENT") then some .CONTENT
  else if s = ("STUDENT_CODE_CELL") then some .STUDENT_CODE_CELL
  else if s = ("EXPLANATION") then some .EXPLANATION
  else if s = ("ANSWER_EXAMPLES") then some .ANSWER_EXAMPLES
  else if s = ("STUDENT_TESTS") then some .STUDENT_TESTS
  else if s = ("SYSTEM_TEST_CASES") then some .SYSTEM_TEST_CASES
  else if s = ("SYSTEM_TEST_CASES_EXECUTE_CELL") then some .SYSTEM_TEST_CASES_EXECUTE_CELL
  else if s = ("SYSTEM_TEST_SETTING") then some .SYSTEM_TEST_SETTING
  else none

/-- Cardinality chain of `load_exercise` (build_autograde.py:186-193),
including the redundant first branch, which in the source tests
`(FieldProperty.OPTIONAL | FieldProperty.OPTIONAL) in field_enum.properties`
and therefore always swallows optional fields before the `at most 1` branch
can run. -/
def cardinalityOk (p : FieldProps) (n : Nat) : Bool :=
  if p.optional then true
  else if p.optional then n ≤ 1
  else if p.list then 0 < n
  else if p.single then n = 1
  else true

/-! ### Exercise records and `load_exercise` -/

/-- Embedding of the `Exercise` dataclass.  `system_test_setting` holds, in
place of the function produced by executing the cell through the external
`judge_setting` collaborator, the cell group that `load_system_test_setting`
would execute. -/
structure ExerciseRec where
  key : String
  dirpath : String
  version : String
  title : String
  content : List Cell
  studentCodeCell : Cell
  explanation : List Cell
  answerExamples : List Cell
  studentTests : List Cell
  systemTestCases : List (String × String × Cell)
  systemTestSetting : List Cell
deriving DecidableEq, Repr

/-- The `exercise_kwargs` dictionary being accumulated by `load_exercise`:
each constructor argument is absent until its field group has been seen. -/
structure KwState where
  title : Option String
  content : Option (List Cell)
  studentCodeCell : Option Cell
  explanation : Option (List Cell)
  answerExamples : Option (List Cell)
  studentTests : Option (List Cell)
  systemTestCases : Option (List (String × String × Cell))
  systemTestSetting : Option (List Cell)
deriving DecidableEq, Repr

/-- The initial `exercise_kwargs` (only `key`/`dirpath`/`version`, which the
model passes separately). -/
def kwEmpty : KwState :=
  ⟨none, none, none, none, none, none, none, none⟩

/-- Model of `Exercise(**exercise_kwargs)`: the constructor call fails with a
`TypeError` unless every remaining argument has been collected. -/
def buildExercise (key dirpath version : String) (kw : KwState) : Option ExerciseRec :=
  match kw.title, kw.content, kw.studentCodeCell, kw.explanation, kw.answerExamples,
      kw.studentTests, kw.systemTestCases, kw.systemTestSetting with
  | some t, some c, some scc, some ex, some ae, some st, some stc, some sts =>
    some ⟨key, dirpath, version, t, c, scc, ex, ae, st, stc, sts⟩
  | _, _, _, _, _, _, _, _ => none

/-- The `MARKDOWN_HEADED` validation of build_autograde.py:198-203.  Returns
`none` on an assertion failure, `some (some g)` when the check ran and
captured heading text `g`, and `some none` when the check was skipped. -/
def headedCheck (p : FieldProps) (cells : List Cell) : Option (Option String) :=
  if decide (0 < cells.length) && p.markdownHeaded then
    match cells with
    | [] => none
    | c0 :: _ =>
      if c0.cellType ≠ CellType.markdown then none
      else
        match (pySplitLines (pyStrip c0.source)).head? with
        | none => none
        | some firstLine =>
          match matchHeading firstLine with
          | none => none
          | some g => some (some g)
  else some none

/-- Validation and storage of one (non-ignored) field group, lines 186-211 of
build_autograde.py: cardinality check, `CODE` kind check, `MARKDOWN_HEADED`
check with title capture for `CONTENT`, then the field-specific conversion
(`SYSTEM_TEST_CASES` runs `split_file_code_cell` per cell,
`STUDENT_CODE_CELL` stores `cells[0]`, `SYSTEM_TEST_SETTING` stores the group
handed to the external executor, every other field stores the cell list). -/
def applyGroup (kw : KwState) (fk : FieldKey) (cells : List Cell) : Option KwState :=
  let p := fieldProperties fk
  if !(cardinalityOk p cells.length) then none
  else if p.code && !(cells.all fun c => c.cellType = CellType.code) then none
  else
    match headedCheck p cells with
    | none => none
    | some cap =>
      let kw1 :=
        match cap with
        | some t => if fk = FieldKey.CONTENT then { kw with title := some t } else kw
        | none => kw
      match fk with
      | .CONTENT => some { kw1 with content := some cells }
      | .STUDENT_CODE_CELL =>
        match cells.head? with
        | some c => some { kw1 with studentCodeCell := some c }
        | none => none
      | .EXPLANATION => some { kw1 with explanation := some cells }
      | .ANSWER_EXAMPLES => some { kw1 with answerExamples := some cells }
      | .STUDENT_TESTS => some { kw1 with studentTests := some cells }
      | .SYSTEM_TEST_CASES =>
        match cells.mapM splitFileCodeCell with
        | some l => some { kw1 with systemTestCases := some l }
        | none => none
      | .SYSTEM_TEST_SETTING => some { kw1 with systemTestSetting := some cells }
      | .WARNING => none
      | .SYSTEM_TEST_CASES_EXECUTE_CELL => none

/-- Loop of `load_exercise` over `split_cells(raw_cells).items()`:
a `None` key or an unknown field name is fatal, `WARNING` and
`SYSTEM_TEST_CASES_EXECUTE_CELL` are skipped before any validation
(build_autograde.py:182-183), every other group is validated and stored.
`applyGroup` is unreachable for the two skipped keys. -/
def processGroups (key dirpath version : String) :
    KwState → List (Option String × List Cell) → Option ExerciseRec
  | kw, [] => buildExercise key dirpath version kw
  | kw, (fkName, cells) :: rest =>
    match fkName with
    | none => none
    | some name =>
      match parseFieldKey name with
      | none => none
      | some fk =>
        if fk = FieldKey.WARNING || fk = FieldKey.SYSTEM_TEST_CASES_EXECUTE_CELL then
          processGroups key dirpath version kw rest
        else
          match applyGroup kw fk cells with
          | none => none
          | some kw2 => processGroups key dirpath version kw2 rest

/-- Embedding of `load_exercise` (build_autograde.py:176-213) from the
normalized cell sequence of the master document; `key`, `dirpath` and
`version` stand for the values the source reads from the path and the
notebook metadata. -/
def loadExercise (key dirpath version : String) (raw : List (CellType × String)) :
    Option ExerciseRec :=
  match splitCells raw with
  | none => none
  | some groups => processGroups key dirpath version kwEmpty groups

/-! ### Submission cells and redirection -/

/-- Character class `[ \t]` of the redirect pattern. -/
def tabSpace (c : Char) : Bool :=
  c = ' ' || c = '\t'

/-- Literal `.ipynb`. -/
def ipynbLit : List Char :=
  (".ipynb").data

/-- Literal `redirect-to`. -/
def redirectLit : List Char :=
  ("redirect-to").data

/-- Lazy `\S+?` followed by the literal `.ipynb`: grow the stem one
non-whitespace character at a time, shortest first, until `.ipynb` follows. -/
def lazyStem : List Char → List Char → Option (List Char)
  | _, [] => none
  | acc, c :: rest =>
    if isPySpace c then none
    else if hasPfx ipynbLit rest then some (acc ++ [c])
    else lazyStem (acc ++ [c]) rest

/-- Worker of `matchRedirect` on the character list of the source.  The
`[ \t]*` runs are maximal (the token after each of them can never consume a
space or tab, so the greedy runs never backtrack), the stem is lazy. -/
def matchRedirectChars (l : List Char) : Option String :=
  match l with
  | [] => none
  | c :: rest =>
    if c = '#' then
      let r1 := rest.dropWhile tabSpace
      if hasPfx redirectLit r1 then
        let r2 := (r1.drop 11).dropWhile tabSpace
        if r2.head? = some ':' then
          (lazyStem [] (r2.tail.dropWhile tabSpace)).map
            fun stem => (⟨stem ++ ipynbLit⟩ : String)
        else none
      else none
    else none

/-- Model of `re.match(r'#[ \t]*redirect-to[ \t]*:[ \t]*(\S+?\.ipynb)', s)`
(build_autograde.py:103), returning group 1. -/
def matchRedirect (s : String) : Option String :=
  matchRedirectChars s.data

/-- Embedding of `Exercise.submission_redirection` (build_autograde.py:102-104). -/
def submissionRedirection (e : ExerciseRec) : Option String :=
  matchRedirect e.studentCodeCell.source

/-- Rendering of `SUBMISSION_CELL_FORMAT.format(exercise_key, content)`:
the template is stripped of its leading newline, so the banner starts with
the 58-`#` rule and ends with a blank line before the content. -/
def submissionCellText (key content : String) : String :=
  ("##########################################################\n##  <[ ") ++ key ++
  (" ]> 解答セル (Answer cell)\n##  このコメントの書き変えを禁ず (Never edit this comment)\n##########################################################\n\n") ++
  content

/-- Rendering of `REDIRECTION_CELL_FORMAT.format(redirect_to)` after its
surrounding newlines are stripped. -/
def redirectionCellText (redirectTo : String) : String :=
  ("# このセルではなく ") ++ redirectTo ++ (" を使ってください\n# Use ") ++ redirectTo ++
  (" instead of this cell")

/-- Embedding of `Exercise.submission_cell` (build_autograde.py:106-112). -/
def submissionCell (e : ExerciseRec) : Cell :=
  match submissionRedirection e with
  | some rt => ⟨CellType.code, redirectionCellText rt⟩
  | none => ⟨CellType.code, submissionCellText e.key e.studentCodeCell.source⟩

/-! ### `summarize_testcases` -/

/-- The predicate `is_not_decorator_line` of build_autograde.py:251. -/
def isNotDecoratorLine (s : String) : Bool :=
  !(pyStartsWith s ("@judge_util."))

/-- Embedding of `summarize_testcases` (build_autograde.py:249-256) on the
`system_test_cases` list of an exercise (the only field the source reads).
Per case the source keeps `filter(is_not_decorator_line,
dropwhile(is_not_decorator_line, src.splitlines()))` and appends an empty
separator line; the final `contents.pop()` removes the last separator and
raises `IndexError` (`none`) when there are no test cases at all. -/
def summarizeTestcases (cases : List (String × String × Cell)) : Option Cell :=
  let contents := cases.foldl
    (fun acc c =>
      acc ++ ((pySplitLines c.2.1).dropWhile isNotDecoratorLine).filter isNotDecoratorLine
        ++ [("")])
    []
  match contents with
  | [] => none
  | _ :: _ => some ⟨CellType.code, pyJoinNL contents.dropLast⟩

/-! ### Notebook metadata and the redirect stub -/

/-- Embedding of `ipynb_metadata.submission_metadata`: the `judge_submission`
entry written into a form notebook.  The constant `COMMON_METADATA` kernel
entries that the source merges in carry no exercise data and are omitted. -/
structure SubmissionMetadata where
  exercises : List (String × String)
  extraction : Bool
deriving DecidableEq, Repr

/-- Model of `ipynb_metadata.submission_metadata(key_to_version, extraction)`. -/
def submissionMetadata (keyToVersion : List (String × String)) (extraction : Bool) :
    SubmissionMetadata :=
  ⟨keyToVersion, extraction⟩

/-- Raw ipynb cell as read back by `ipynb_util.load_cells(path, True)`:
the `cell_type` string and the `source` line list that
`create_redirect_form` inspects. -/
structure RawCell where
  cellTypeValue : String
  sourceLines : List String
deriving DecidableEq, Repr

/-- Substring search on character lists (`re.search` of a literal pattern). -/
def listContains (l pat : List Char) : Bool :=
  match l with
  | [] => hasPfx pat []
  | _ :: cs => hasPfx pat l || listContains cs pat

/-- Model of Python's `pat in s` / `re.search` for a literal `pat`. -/
def pyContains (s pat : String) : Bool :=
  listContains s.data pat.data

/-- The banner marker `<[ {key} ]>` that `create_redirect_form` greps for. -/
def bannerMarker (key : String) : String :=
  ("<[ ") ++ key ++ (" ]>")

/-- Keys whose characters are all regex-literal, so that interpolating them
into `rf'<\[ {key} \]>'` searches for the literal marker text.  The source
interpolates the exercise key unescaped; for keys containing regex
metacharacters `re.search` would not be a literal substring search, and this
model is stated only for safe keys. -/
def keyRegexSafe (key : String) : Bool :=
  key.data.all fun c => c.isAlphanum || c = '_' || c = '-'

/-- Embedding of `create_redirect_form` (build_autograde.py:344-352) for a
regex-safe exercise key: fails (`assert`) unless some code cell of the target
document has a line containing the banner marker of `exercise.key`; on
success the submission metadata registering `key ↦ version` is written into
the target.  A missing redirection target makes the preceding
`os.path.join(dirpath, None)` raise, hence `none`. -/
def createRedirectForm (e : ExerciseRec) (targetCells : List RawCell) :
    Option SubmissionMetadata :=
  match submissionRedirection e with
  | none => none
  | some _ =>
    if targetCells.any (fun c => c.cellTypeValue = CellType.value CellType.code &&
        c.sourceLines.any fun line => pyContains line (bannerMarker e.key)) then
      some (submissionMetadata [(e.key, e.version)] true)
    else none

/-! ### Canonical JSON serialization of the version hash input

`cleanup_exercise_masters` renews a version as
`hashlib.sha1(json.dumps(exercise_definition).encode()).hexdigest()` where
`exercise_definition` holds the `to_ipynb` forms of the content cells, the
rendered submission cell and the student-test cells
(build_autograde.py:233-241).  The serializer below reproduces
`json.dumps` with its default separators and `ensure_ascii=True` escaping on
exactly the dictionary shapes produced by `Cell.to_ipynb`. -/

/-- Lowercase hex digit. -/
def hexDig (n : Nat) : Char :=
  (("0123456789abcdef").data).getD n '0'

/-- Four-digit lowercase hex of a value below `0x10000`. -/
def hex4 (n : Nat) : List Char :=
  [hexDig (n / 4096 % 16), hexDig (n / 256 % 16), hexDig (n / 16 % 16), hexDig (n % 16)]

/-- Escape of one character in `json.dumps` with `ensure_ascii=True`:
the seven short escapes, printable ASCII verbatim, `\uXXXX` for the rest,
surrogate pairs above the basic multilingual plane. -/
def escChar (c : Char) : List Char :=
  if c = '\\' then ['\\', '\\']
  else if c = '"' then ['\\', '"']
  else if c = '\x08' then ['\\', 'b']
  else if c = '\x0c' then ['\\', 'f']
  else if c = '\n' then ['\\', 'n']
  else if c = '\r' then ['\\', 'r']
  else if c = '\t' then ['\\', 't']
  else if 0x20 ≤ c.toNat && c.toNat ≤ 0x7e then [c]
  else if c.toNat < 0x10000 then '\\' :: 'u' :: hex4 c.toNat
  else
    ('\\' :: 'u' :: hex4 (0xd800 + (c.toNat - 0x10000) / 0x400)) ++
    ('\\' :: 'u' :: hex4 (0xdc00 + (c.toNat - 0x10000) % 0x400))

/-- Characterwise JSON string-body escape. -/
def escString : List Char → List Char
  | [] => []
  | c :: cs => escChar c ++ escString cs

/-- JSON string literal. -/
def dumpStr (s : String) : List Char :=
  '"' :: (escString s.data ++ ['"'])

/-- JSON array of already-serialized items, `", "`-separated. -/
def dumpArr (items : List (List Char)) : List Char :=
  '[' :: (List.intercalate ((", ").data) items ++ [']'])

/-- Serialization of `Cell.to_ipynb` (build_autograde.py:76-86) through
`json.dumps`: a code cell carries the empty execution-state entries, and the
`source` entry is the keepends line split of the cell source. -/
def dumpCell (c : Cell) : List Char :=
  let src := dumpArr ((pySplitLinesKeep c.source).map dumpStr)
  match c.cellType with
  | .code =>
    ("\x7b\"cell_type\": \"code\", \"execution_count\": null, \"metadata\": \x7b\x7d, \"outputs\": [], \"source\": ").data
      ++ src ++ [('\x7d')]
  | .markdown =>
    ("\x7b\"cell_type\": \"markdown\", \"metadata\": \x7b\x7d, \"source\": ").data ++ src ++ [('\x7d')]
  | .raw =>
    ("\x7b\"cell_type\": \"raw\", \"metadata\": \x7b\x7d, \"source\": ").data ++ src ++ [('\x7d')]

/-- JSON array of serialized cells. -/
def dumpCellArr (cs : List Cell) : List Char :=
  dumpArr (cs.map dumpCell)

/-- The exact `json.dumps(exercise_definition)` string hashed by
`cleanup_exercise_masters` when `--renew_version` asks for the SHA-1 digest:
the insertion-ordered object with the serialized `content`,
`submission_cell` and `student_tests` components. -/
def versionHashInput (content : List Cell) (sub : Cell) (tests : List Cell) : String :=
  ⟨("\x7b\"content\": ").data ++ dumpCellArr content ++
   (", \"submission_cell\": ").data ++ dumpCell sub ++
   (", \"student_tests\": ").data ++ dumpCellArr tests ++ [('\x7d')]⟩

/-! ### SHA-1 (`hashlib.sha1`, `str.encode`) -/

/-- UTF-8 bytes of one unicode scalar value. -/
def utf8Char (c : Char) : List Nat :=
  let n := c.toNat
  if n < 0x80 then [n]
  else if n < 0x800 then [0xc0 + n / 64, 0x80 + n % 64]
  else if n < 0x10000 then [0xe0 + n / 4096, 0x80 + n / 64 % 64, 0x80 + n % 64]
  else [0xf0 + n / 0x40000, 0x80 + n / 4096 % 64, 0x80 + n / 64 % 64, 0x80 + n % 64]

/-- Model of Python's `str.encode()` (UTF-8). -/
def utf8Bytes (s : String) : List Nat :=
  (s.data.map utf8Char).flatten

/-- Rotate a 32-bit word left by `k`. -/
def rotl32 (x k : Nat) : Nat :=
  (((x <<< k) % 4294967296) ||| (x >>> (32 - k)))

/-- Big-endian bytes of a 32-bit word. -/
def be4 (n : Nat) : List Nat :=
  [n / 16777216 % 256, n / 65536 % 256, n / 256 % 256, n % 256]

/-- Big-endian bytes of the 64-bit message bit length. -/
def be8 (n : Nat) : List Nat :=
  [n / 72057594037927936 % 256, n / 281474976710656 % 256, n / 1099511627776 % 256,
   n / 4294967296 % 256, n / 16777216 % 256, n / 65536 % 256, n / 256 % 256, n % 256]

/-- Merkle-Damgard padding of SHA-1: `0x80`, zeros to 56 mod 64, then the
bit length. -/
def sha1Pad (msg : List Nat) : List Nat :=
  msg ++ [0x80] ++ List.replicate ((120 - ((msg.length + 1) % 64)) % 64) 0 ++
    be8 (msg.length * 8)

/-- Big-endian 32-bit words of a byte list. -/
def bytesToWords : List Nat → List Nat
  | b0 :: b1 :: b2 :: b3 :: rest =>
    (b0 * 16777216 + b1 * 65536 + b2 * 256 + b3) :: bytesToWords rest
  | _ => []

/-- Fuel-bounded 64-byte chunking (each step consumes 64 bytes, so
`l.length` fuel is enough). -/
def chunks64Fuel : Nat → List Nat → List (List Nat)
  | 0, _ => []
  | _ + 1, [] => []
  | fuel + 1, c :: cs => (c :: cs).take 64 :: chunks64Fuel fuel ((c :: cs).drop 64)

/-- 64-byte blocks of the padded message. -/
def chunks64 (l : List Nat) : List (List Nat) :=
  chunks64Fuel l.length l

/-- Message-schedule extension of the 16 block words to 80 words. -/
def sha1Extend (ws : List Nat) : List Nat :=
  (List.range 64).foldl
    (fun acc _ =>
      let i := acc.length
      acc ++ [rotl32 ((acc.getD (i - 3) 0) ^^^ (acc.getD (i - 8) 0) ^^^
        (acc.getD (i - 14) 0) ^^^ (acc.getD (i - 16) 0)) 1])
    ws

/-- One SHA-1 round. -/
def sha1Round (st : Nat × Nat × Nat × Nat × Nat) (iw : Nat × Nat) :
    Nat × Nat × Nat × Nat × Nat :=
  let (a, b, c, d, e) := st
  let (i, w) := iw
  let f :=
    if i < 20 then (b &&& c) ||| ((b ^^^ 4294967295) &&& d)
    else if i < 40 then b ^^^ c ^^^ d
    else if i < 60 then (b &&& c) ||| (b &&& d) ||| (c &&& d)
    else b ^^^ c ^^^ d
  let k :=
    if i < 20 then 0x5a827999
    else if i < 40 then 0x6ed9eba1
    else if i < 60 then 0x8f1bbcdc
    else 0xca62c1d6
  ((rotl32 a 5 + f + e + k + w) % 4294967296, a, rotl32 b 30, c, d)

/-- Compression of one 64-byte block into the running state. -/
def sha1Block (h : Nat × Nat × Nat × Nat × Nat) (block : List Nat) :
    Nat × Nat × Nat × Nat × Nat :=
  let (a, b, c, d, e) := (sha1Extend (bytesToWords block)).enum.foldl sha1Round h
  ((h.1 + a) % 4294967296, (h.2.1 + b) % 4294967296, (h.2.2.1 + c) % 4294967296,
   (h.2.2.2.1 + d) % 4294967296, (h.2.2.2.2 + e) % 4294967296)

/-- SHA-1 digest bytes of a byte message. -/
def sha1 (msg : List Nat) : List Nat :=
  let h := (chunks64 (sha1Pad msg)).foldl sha1Block
    (0x67452301, 0xefcdab89, 0x98badcfe, 0x10325476, 0xc3d2e1f0)
  be4 h.1 ++ be4 h.2.1 ++ be4 h.2.2.1 ++ be4 h.2.2.2.1 ++ be4 h.2.2.2.2

/-- Two-digit lowercase hex of a byte. -/
def byteHex (b : Nat) : List Char :=
  [hexDig (b / 16 % 16), hexDig (b % 16)]

/-- Model of `hashlib.sha1(...).hexdigest()`. -/
def sha1Hex (msg : List Nat) : String :=
  ⟨((sha1 msg).map byteHex).flatten⟩

/-- The renewed hash version of an exercise
(build_autograde.py:233-241): SHA-1 hexdigest of the canonical JSON of
`{content, submission_cell, student_tests}`. -/
def renewVersion (e : ExerciseRec) : String :=
  sha1Hex (utf8Bytes (versionHashInput e.content (submissionCell e) e.studentTests))

/-! ### Specification-side segmenter (claim C1)

The specification describes `split_cells` as a linear state machine with an
explicit enumerated state (no field open yet, or a named field open), an
accumulator, and a result map; blank cells are discarded before the machine
runs.  The definitions below transcribe that description; the claim is then
an extensional equality with the transcription of the source loop. -/

/-- Machine state of the specified segmenter: no field open, or field `key`
open. -/
inductive SegState where
  | noField
  | inField (key : String)
deriving DecidableEq, Repr

/-- Result-map key under which the machine's current accumulator is flushed:
the open field if any, the null key of the source's final
`results[current_key]` statement otherwise. -/
def segStateKey : SegState → Option String
  | .noField => none
  | .inField k => some k

/-- Cells whose trimmed text is empty are discarded by the Segmenter. -/
def isBlankCell (c : CellType × String) : Bool :=
  pyStrip c.2 = ("")

/-- One transition of the specified state machine: a CODE or RAW cell fails
unless a field is open and is otherwise appended; a MARKDOWN cell with no
marker occurrence behaves the same way; one with several occurrences fails;
one with exactly one occurrence flushes the accumulator under the previously
open field (if any), opens the matched field and is itself discarded. -/
def specStep : SegState → List Cell → List (Option String × List Cell) →
    (CellType × String) → Option (SegState × List Cell × List (Option String × List Cell))
  | st, acc, res, (t, s) =>
    if t = CellType.markdown then
      match markerMatches s with
      | [] =>
        match st with
        | .noField => none
        | .inField _ => some (st, acc ++ [⟨t, s⟩], res)
      | [k] =>
        match st with
        | .noField => some (.inField k, acc, res)
        | .inField key => some (.inField k, [], dictInsert res (some key) acc)
      | _ :: _ :: _ => none
    else
      match st with
      | .noField => none
      | .inField _ => some (st, acc ++ [⟨t, s⟩], res)

/-- Run of the specified machine; at end of input the final accumulator is
flushed under the current key. -/
def specSegRun : SegState → List Cell → List (Option String × List Cell) →
    List (CellType × String) → Option (List (Option String × List Cell))
  | st, acc, res, [] => some (dictInsert res (segStateKey st) acc)
  | st, acc, res, c :: rest =>
    match specStep st acc res c with
    | none => none
    | some (st2, acc2, res2) => specSegRun st2 acc2 res2 rest

/-- The segmenter as specified: discard blank cells, then run the state
machine from the no-field state. -/
def specSegment (raw : List (CellType × String)) :
    Option (List (Option String × List Cell)) :=
  specSegRun .noField [] [] (raw.filter fun c => !(isBlankCell c))

/-- Machine state corresponding to a `current_key` value of the source loop. -/
def stateOfKey : Option String → SegState
  | none => SegState.noField
  | some k => SegState.inField k

theorem splitCellsLoop_eq_spec : ∀ raw ck acc res,
    splitCellsLoop ck acc res raw =
      specSegRun (stateOfKey ck) acc res (raw.filter fun c => !(isBlankCell c)) := by
  intro raw
  induction raw with
  | nil =>
    intro ck acc res
    cases ck <;> rfl
  | cons hd rest ih =>
    intro ck acc res
    obtain ⟨t, s⟩ := hd
    by_cases hb : pyStrip s = ("")
    · have h2 : List.filter (fun c => !(isBlankCell c)) ((t, s) :: rest) =
          List.filter (fun c => !(isBlankCell c)) rest := by
        simp [isBlankCell, hb]
      rw [h2, ← ih ck acc res]
      simp [splitCellsLoop, hb]
    · have h2 : List.filter (fun c => !(isBlankCell c)) ((t, s) :: rest) =
          (t, s) :: List.filter (fun c => !(isBlankCell c)) rest := by
        simp [isBlankCell, hb]
      rw [h2]
      cases t with
      | code =>
        cases ck with
        | none => simp [splitCellsLoop, hb, specSegRun, specStep, stateOfKey]
        | some key =>
          rw [show splitCellsLoop (some key) acc res ((CellType.code, s) :: rest) =
              splitCellsLoop (some key) (acc ++ [⟨CellType.code, s⟩]) res rest from by
            simp [splitCellsLoop, hb]]
          rw [ih]
          simp [specSegRun, specStep, stateOfKey]
      | raw =>
        cases ck with
        | none => simp [splitCellsLoop, hb, specSegRun, specStep, stateOfKey]
        | some key =>
          rw [show splitCellsLoop (some key) acc res ((CellType.raw, s) :: rest) =
              splitCellsLoop (some key) (acc ++ [⟨CellType.raw, s⟩]) res rest from by
            simp [splitCellsLoop, hb]]
          rw [ih]
          simp [specSegRun, specStep, stateOfKey]
      | markdown =>
        cases hm : markerMatches s with
        | nil =>
          cases ck with
          | none => simp [splitCellsLoop, hb, hm, specSegRun, specStep, stateOfKey]
          | some key =>
            rw [show splitCellsLoop (some key) acc res ((CellType.markdown, s) :: rest) =
                splitCellsLoop (some key) (acc ++ [⟨CellType.markdown, s⟩]) res rest from by
              simp [splitCellsLoop, hb, hm]]
            rw [ih]
            simp [specSegRun, specStep, stateOfKey, hm]
        | cons m ms =>
          cases ms with
          | nil =>
            cases ck with
            | none =>
              rw [show splitCellsLoop none acc res ((CellType.markdown, s) :: rest) =
                  splitCellsLoop (some m) acc res rest from by
                simp [splitCellsLoop, hb, hm]]
              rw [ih]
              simp [specSegRun, specStep, stateOfKey, hm]
            | some key =>
              rw [show splitCellsLoop (some key) acc res ((CellType.markdown, s) :: rest) =
                  splitCellsLoop (some m) [] (dictInsert res (some key) acc) rest from by
                simp [splitCellsLoop, hb, hm]]
              rw [ih]
              simp [specSegRun, specStep, stateOfKey, hm]
          | cons m2 ms2 =>
            simp [splitCellsLoop, hb, hm, specSegRun, specStep]

/-- C1: for every input cell sequence, `split_cells` behaves as the specified
linear state machine: cells whose trimmed text is empty are discarded; a CODE
or RAW cell fails unless a field is currently open and is otherwise appended
to the current accumulator; a MARKDOWN cell with zero marker occurrences is
treated the same way; one with more than one occurrence of
`***CONTENT_TYPE: <FIELD_NAME>***` fails; one with exactly one occurrence
flushes the accumulator under the previously open field (if any), opens the
matched field, and its own text appears in no field's content; at end of
input the final accumulator is flushed under the machine's current key — the
last open field when one exists. -/
theorem C1_segmenter_state_machine : ∀ raw, splitCells raw = specSegment raw := by
  intro raw
  exact splitCellsLoop_eq_spec raw none [] []

/-! ### Claim C10: duplicate field markers -/

/-- First-match association lookup (Python `results[k]` read access). -/
def dictLookup (res : List (Option String × List Cell)) (k : Option String) :
    Option (List Cell) :=
  match res with
  | [] => none
  | (k', v) :: t => if k' = k then some v else dictLookup t k

theorem dictInsert_lookup_self (res : List (Option String × List Cell)) (k : Option String)
    (v : List Cell) : dictLookup (dictInsert res k v) k = some v := by
  induction res with
  | nil => simp [dictInsert, dictLookup]
  | cons hd t ih =>
    obtain ⟨k', v'⟩ := hd
    by_cases h : k' = k
    · simp [dictInsert, h, dictLookup]
    · simp [dictInsert, h, dictLookup, ih]

theorem dictInsert_lookup_other (res : List (Option String × List Cell)) (k k' : Option String)
    (v : List Cell) (h : k ≠ k') : dictLookup (dictInsert res k v) k' = dictLookup res k' := by
  induction res with
  | nil => simp [dictInsert, dictLookup, h]
  | cons hd t ih =>
    obtain ⟨k0, v0⟩ := hd
    by_cases h0 : k0 = k
    · subst h0
      simp [dictInsert, dictLookup, h]
    · simp [dictInsert, h0, dictLookup, ih]

/-- Content collected for field `k` by the segmentation as the claim describes
it: `cur` is the cell list accumulated since the most recent marker declaring
`k` (up to the marker that closed it, if one followed), `live` tells whether
that segment is still open.  Blank cells are skipped; a single-marker
markdown cell either restarts the collection (marker for `k`) or closes it
(marker for another field); every other cell is content and is appended while
the segment is open. -/
def specLastSegment (k : String) : Option (List Cell) → Bool →
    List (CellType × String) → Option (List Cell)
  | cur, _, [] => cur
  | cur, live, (t, s) :: rest =>
    if isBlankCell (t, s) then specLastSegment k cur live rest
    else
      match (if t = CellType.markdown then markerMatches s else []) with
      | [m] =>
        if m = k then specLastSegment k (some []) true rest
        else specLastSegment k cur false rest
      | _ =>
        if live then specLastSegment k (some (cur.getD [] ++ [⟨t, s⟩])) live rest
        else specLastSegment k cur live rest

theorem lookup_splitCellsLoop : ∀ raw ck acc res out k,
    splitCellsLoop ck acc res raw = some out →
    (ck = none → acc = []) →
    dictLookup out (some k) =
      specLastSegment k (if ck = some k then some acc else dictLookup res (some k))
        (decide (ck = some k)) raw := by
  intro raw
  induction raw with
  | nil =>
    intro ck acc res out k h hacc
    simp only [splitCellsLoop, Option.some.injEq] at h
    subst h
    by_cases hk : ck = some k
    · subst hk
      simp [specLastSegment, dictInsert_lookup_self]
    · rw [dictInsert_lookup_other _ _ _ _ (fun hh => hk hh)]
      simp [specLastSegment, hk]
  | cons hd rest ih =>
    intro ck acc res out k h hacc
    obtain ⟨t, s⟩ := hd
    by_cases hb : pyStrip s = ("")
    · rw [show splitCellsLoop ck acc res ((t, s) :: rest) = splitCellsLoop ck acc res rest from by
        simp [splitCellsLoop, hb]] at h
      rw [show specLastSegment k (if ck = some k then some acc else dictLookup res (some k))
            (decide (ck = some k)) ((t, s) :: rest) =
          specLastSegment k (if ck = some k then some acc else dictLookup res (some k))
            (decide (ck = some k)) rest from by
        simp [specLastSegment, isBlankCell, hb]]
      exact ih ck acc res out k h hacc
    · have hnb : isBlankCell (t, s) = false := by simp [isBlankCell, hb]
      cases t with
      | markdown =>
        cases hm : markerMatches s with
        | nil =>
          match hck : ck with
          | none =>
            simp [splitCellsLoop, hb, hm] at h
          | some key =>
            rw [show splitCellsLoop (some key) acc res ((CellType.markdown, s) :: rest) =
                splitCellsLoop (some key) (acc ++ [⟨CellType.markdown, s⟩]) res rest from by
              simp [splitCellsLoop, hb, hm]] at h
            have := ih (some key) (acc ++ [⟨CellType.markdown, s⟩]) res out k h (by simp)
            rw [this]
            by_cases hk : key = k
            · subst hk
              simp [specLastSegment, hnb, hm]
            · have h1 : ¬ (some key = some k) := by simp [hk]
              simp [specLastSegment, hnb, hm, hk, h1]
        | cons m ms =>
          cases ms with
          | nil =>
            match hck : ck with
            | none =>
              rw [show splitCellsLoop none acc res ((CellType.markdown, s) :: rest) =
                  splitCellsLoop (some m) acc res rest from by
                simp [splitCellsLoop, hb, hm]] at h
              have := ih (some m) acc res out k h (by simp)
              rw [this, hacc rfl]
              by_cases hk : m = k
              · subst hk
                simp [specLastSegment, hnb, hm]
              · have h1 : ¬ (some m = some k) := by simp [hk]
                simp [specLastSegment, hnb, hm, hk, h1]
            | some key =>
              rw [show splitCellsLoop (some key) acc res ((CellType.markdown, s) :: rest) =
                  splitCellsLoop (some m) [] (dictInsert res (some key) acc) rest from by
                simp [splitCellsLoop, hb, hm]] at h
              have := ih (some m) [] (dictInsert res (some key) acc) out k h (by simp)
              rw [this]
              by_cases hk : m = k
              · subst hk
                simp [specLastSegment, hnb, hm]
              · have h1 : ¬ (some m = some k) := by simp [hk]
                by_cases hkey : key = k
                · subst hkey
                  rw [dictInsert_lookup_self]
                  simp [specLastSegment, hnb, hm, hk, h1]
                · have h2 : (some key : Option String) ≠ some k := by simp [hkey]
                  rw [dictInsert_lookup_other _ _ _ _ h2]
                  have h3 : ¬ (some key = some k) := by simp [hkey]
                  simp [specLastSegment, hnb, hm, hk, h1, h3]
          | cons m2 ms2 =>
            rw [show splitCellsLoop ck acc res ((CellType.markdown, s) :: rest) = none from by
              cases ck <;> simp [splitCellsLoop, hb, hm]] at h
            exact absurd h (by simp)
      | code =>
        match hck : ck with
        | none =>
          simp [splitCellsLoop, hb] at h
        | some key =>
          rw [show splitCellsLoop (some key) acc res ((CellType.code, s) :: rest) =
              splitCellsLoop (some key) (acc ++ [⟨CellType.code, s⟩]) res rest from by
            simp [splitCellsLoop, hb]] at h
          have := ih (some key) (acc ++ [⟨CellType.code, s⟩]) res out k h (by simp)
          rw [this]
          by_cases hk : key = k
          · subst hk
            simp [specLastSegment, hnb]
          · have h1 : ¬ (some key = some k) := by simp [hk]
            simp [specLastSegment, hnb, hk, h1]
      | raw =>
        match hck : ck with
        | none =>
          simp [splitCellsLoop, hb] at h
        | some key =>
          rw [show splitCellsLoop (some key) acc res ((CellType.raw, s) :: rest) =
              splitCellsLoop (some key) (acc ++ [⟨CellType.raw, s⟩]) res rest from by
            simp [splitCellsLoop, hb]] at h
          have := ih (some key) (acc ++ [⟨CellType.raw, s⟩]) res out k h (by simp)
          rw [this]
          by_cases hk : key = k
          · subst hk
            simp [specLastSegment, hnb]
          · have h1 : ¬ (some key = some k) := by simp [hk]
            simp [specLastSegment, hnb, hk, h1]

/-- C10: when the same field name is declared by several marker cells in one
document, `split_cells` returns under that field name only the cells
accumulated after its last marker (up to the next marker); the cells that
followed every earlier occurrence are silently discarded by the overwriting
flush, and no error is raised. -/
theorem C10_duplicate_marker_overwrites (raw : List (CellType × String))
    (res : List (Option String × List Cell)) (k : String)
    (h : splitCells raw = some res) :
    dictLookup res (some k) = specLastSegment k none false raw := by
  have := lookup_splitCellsLoop raw none [] [] res k h (fun _ => rfl)
  simpa [dictLookup] using this

/-! ### Claims C3, C4, C9: validation and construction of exercise records -/

/-- Canonical name of each field key (the `FieldKey` member names). -/
def fieldKeyName : FieldKey → String
  | .WARNING => "WARNING"
  | .CONTENT => "CONTENT"
  | .STUDENT_CODE_CELL => "STUDENT_CODE_CELL"
  | .EXPLANATION => "EXPLANATION"
  | .ANSWER_EXAMPLES => "ANSWER_EXAMPLES"
  | .STUDENT_TESTS => "STUDENT_TESTS"
  | .SYSTEM_TEST_CASES => "SYSTEM_TEST_CASES"
  | .SYSTEM_TEST_CASES_EXECUTE_CELL => "SYSTEM_TEST_CASES_EXECUTE_CELL"
  | .SYSTEM_TEST_SETTING => "SYSTEM_TEST_SETTING"

theorem parseFieldKey_name (name : String) (fk : FieldKey)
    (h : parseFieldKey name = some fk) : name = fieldKeyName fk := by
  simp only [parseFieldKey] at h
  split_ifs at h <;> simp only [Option.some.injEq] at h <;> (try subst h) <;>
    simp_all [fieldKeyName]

theorem applyGroup_fields (kw : KwState) (fk : FieldKey) (cells : List Cell) (kw2 : KwState)
    (h : applyGroup kw fk cells = some kw2) :
    (fk ≠ FieldKey.CONTENT → kw2.content = kw.content) ∧
    (fk ≠ FieldKey.STUDENT_CODE_CELL → kw2.studentCodeCell = kw.studentCodeCell) ∧
    (fk ≠ FieldKey.EXPLANATION → kw2.explanation = kw.explanation) ∧
    (fk ≠ FieldKey.ANSWER_EXAMPLES → kw2.answerExamples = kw.answerExamples) ∧
    (fk ≠ FieldKey.STUDENT_TESTS → kw2.studentTests = kw.studentTests) ∧
    (fk ≠ FieldKey.SYSTEM_TEST_CASES → kw2.systemTestCases = kw.systemTestCases) ∧
    (fk ≠ FieldKey.SYSTEM_TEST_SETTING → kw2.systemTestSetting = kw.systemTestSetting) := by
  cases fk <;>
    (simp only [applyGroup] at h; repeat' split at h) <;>
    (try (rw [Option.some_inj] at h; subst h)) <;> simp_all

theorem applyGroup_checks (kw : KwState) (fk : FieldKey) (cells : List Cell) (kw2 : KwState)
    (h : applyGroup kw fk cells = some kw2) :
    cardinalityOk (fieldProperties fk) cells.length = true ∧
    ((fieldProperties fk).code = true → cells.all (fun c => c.cellType = CellType.code) = true) ∧
    (headedCheck (fieldProperties fk) cells).isSome = true := by
  simp only [applyGroup] at h
  repeat' split at h
  all_goals simp_all

theorem processGroups_present : ∀ (gs : List (Option String × List Cell)) (key d v : String)
    (kw : KwState) (r : ExerciseRec), processGroups key d v kw gs = some r →
    (kw.content = none → ∃ cells, (some ("CONTENT"), cells) ∈ gs) ∧
    (kw.studentCodeCell = none → ∃ cells, (some ("STUDENT_CODE_CELL"), cells) ∈ gs) ∧
    (kw.explanation = none → ∃ cells, (some ("EXPLANATION"), cells) ∈ gs) ∧
    (kw.answerExamples = none → ∃ cells, (some ("ANSWER_EXAMPLES"), cells) ∈ gs) ∧
    (kw.studentTests = none → ∃ cells, (some ("STUDENT_TESTS"), cells) ∈ gs) ∧
    (kw.systemTestCases = none → ∃ cells, (some ("SYSTEM_TEST_CASES"), cells) ∈ gs) ∧
    (kw.systemTestSetting = none → ∃ cells, (some ("SYSTEM_TEST_SETTING"), cells) ∈ gs) := by
  intro gs
  induction gs with
  | nil =>
    intro key d v kw r h
    simp only [processGroups, buildExercise] at h
    split at h
    · rename_i t c scc ex ae st stc sts heq
      refine ⟨?_, ?_, ?_, ?_, ?_, ?_, ?_⟩ <;> (intro hnone; simp_all)
    · exact absurd h (by simp)
  | cons g rest ih =>
    intro key d v kw r h
    obtain ⟨name?, cells⟩ := g
    match name? with
    | none => simp [processGroups] at h
    | some name =>
      match hp : parseFieldKey name with
      | none => simp [processGroups, hp] at h
      | some fk =>
        by_cases hig : (fk = FieldKey.WARNING || fk = FieldKey.SYSTEM_TEST_CASES_EXECUTE_CELL) = true
        · rw [show processGroups key d v kw ((some name, cells) :: rest) =
              processGroups key d v kw rest from by
            simp only [processGroups, hp, hig, if_true]] at h
          have := ih key d v kw r h
          exact ⟨fun hn => (this.1 hn).elim (fun cs hcs => ⟨cs, List.mem_cons_of_mem _ hcs⟩),
            fun hn => (this.2.1 hn).elim (fun cs hcs => ⟨cs, List.mem_cons_of_mem _ hcs⟩),
            fun hn => (this.2.2.1 hn).elim (fun cs hcs => ⟨cs, List.mem_cons_of_mem _ hcs⟩),
            fun hn => (this.2.2.2.1 hn).elim (fun cs hcs => ⟨cs, List.mem_cons_of_mem _ hcs⟩),
            fun hn => (this.2.2.2.2.1 hn).elim (fun cs hcs => ⟨cs, List.mem_cons_of_mem _ hcs⟩),
            fun hn => (this.2.2.2.2.2.1 hn).elim (fun cs hcs => ⟨cs, List.mem_cons_of_mem _ hcs⟩),
            fun hn => (this.2.2.2.2.2.2 hn).elim (fun cs hcs => ⟨cs, List.mem_cons_of_mem _ hcs⟩)⟩
        · match happ : applyGroup kw fk cells with
          | none =>
            rw [show processGroups key d v kw ((some name, cells) :: rest) = none from by
              simp only [processGroups, hp, hig, if_false, Bool.false_eq_true, happ]] at h
            exact absurd h (by simp)
          | some kw2 =>
            rw [show processGroups key d v kw ((some name, cells) :: rest) =
                processGroups key d v kw2 rest from by
              simp only [processGroups, hp, hig, if_false, Bool.false_eq_true, happ]] at h
            have hrest := ih key d v kw2 r h
            have hpres := applyGroup_fields kw fk cells kw2 happ
            have hname := parseFieldKey_name name fk hp
            refine ⟨?_, ?_, ?_, ?_, ?_, ?_, ?_⟩ <;> intro hn
            · by_cases hfk : fk = FieldKey.CONTENT
              · exact ⟨cells, by rw [hname, hfk]; exact List.mem_cons_self _ _⟩
              · exact (hrest.1 ((hpres.1 hfk).trans hn)).elim
                  (fun cs hcs => ⟨cs, List.mem_cons_of_mem _ hcs⟩)
            · by_cases hfk : fk = FieldKey.STUDENT_CODE_CELL
              · exact ⟨cells, by rw [hname, hfk]; exact List.mem_cons_self _ _⟩
              · exact (hrest.2.1 ((hpres.2.1 hfk).trans hn)).elim
                  (fun cs hcs => ⟨cs, List.mem_cons_of_mem _ hcs⟩)
            · by_cases hfk : fk = FieldKey.EXPLANATION
              · exact ⟨cells, by rw [hname, hfk]; exact List.mem_cons_self _ _⟩
              · exact (hrest.2.2.1 ((hpres.2.2.1 hfk).trans hn)).elim
                  (fun cs hcs => ⟨cs, List.mem_cons_of_mem _ hcs⟩)
            · by_cases hfk : fk = FieldKey.ANSWER_EXAMPLES
              · exact ⟨cells, by rw [hname, hfk]; exact List.mem_cons_self _ _⟩
              · exact (hrest.2.2.2.1 ((hpres.2.2.2.1 hfk).trans hn)).elim
                  (fun cs hcs => ⟨cs, List.mem_cons_of_mem _ hcs⟩)
            · by_cases hfk : fk = FieldKey.STUDENT_TESTS
              · exact ⟨cells, by rw [hname, hfk]; exact List.mem_cons_self _ _⟩
              · exact (hrest.2.2.2.2.1 ((hpres.2.2.2.2.1 hfk).trans hn)).elim
                  (fun cs hcs => ⟨cs, List.mem_cons_of_mem _ hcs⟩)
            · by_cases hfk : fk = FieldKey.SYSTEM_TEST_CASES
              · exact ⟨cells, by rw [hname, hfk]; exact List.mem_cons_self _ _⟩
              · exact (hrest.2.2.2.2.2.1 ((hpres.2.2.2.2.2.1 hfk).trans hn)).elim
                  (fun cs hcs => ⟨cs, List.mem_cons_of_mem _ hcs⟩)
            · by_cases hfk : fk = FieldKey.SYSTEM_TEST_SETTING
              · exact ⟨cells, by rw [hname, hfk]; exact List.mem_cons_self _ _⟩
              · exact (hrest.2.2.2.2.2.2 ((hpres.2.2.2.2.2.2 hfk).trans hn)).elim
                  (fun cs hcs => ⟨cs, List.mem_cons_of_mem _ hcs⟩)

/-- Field names the `Exercise` constructor cannot do without (every dataclass
argument beyond the three passed explicitly; `title` is derived from
`CONTENT`). -/
def requiredFieldNames : List String :=
  [("CONTENT"), ("STUDENT_CODE_CELL"), ("EXPLANATION"), ("ANSWER_EXAMPLES"),
   ("STUDENT_TESTS"), ("SYSTEM_TEST_CASES"), ("SYSTEM_TEST_SETTING")]

/-- C9: constructing an Exercise record from a master document fails whenever
any field's marker is entirely absent from the document — the fields declared
OPTIONAL (`EXPLANATION`, `ANSWER_EXAMPLES`, `STUDENT_TESTS`) included: the
constructor requires every field, so whenever loading succeeds, every one of
the seven field names was declared by some marker (an optional field may be
declared with zero cells, as the witness shows, but its marker must be
present). -/
theorem C9_every_field_marker_required (key d v : String)
    (gs : List (Option String × List Cell)) (r : ExerciseRec)
    (h : processGroups key d v kwEmpty gs = some r) :
    ∀ name ∈ requiredFieldNames, ∃ cells, (some name, cells) ∈ gs := by
  have hp := processGroups_present gs key d v kwEmpty r h
  intro name hname
  simp only [requiredFieldNames, List.mem_cons, List.not_mem_nil, or_false] at hname
  rcases hname with rfl | rfl | rfl | rfl | rfl | rfl | rfl
  · exact hp.1 rfl
  · exact hp.2.1 rfl
  · exact hp.2.2.1 rfl
  · exact hp.2.2.2.1 rfl
  · exact hp.2.2.2.2.1 rfl
  · exact hp.2.2.2.2.2.1 rfl
  · exact hp.2.2.2.2.2.2 rfl

/-- Field groups of a well-formed master document in which all three optional
fields are declared with zero cells. -/
def c9groups : List (Option String × List Cell) :=
  [(some ("CONTENT"), [⟨CellType.markdown, "# Title\nbody"⟩]),
   (some ("STUDENT_CODE_CELL"), [⟨CellType.code, "x = 1"⟩]),
   (some ("EXPLANATION"), []),
   (some ("ANSWER_EXAMPLES"), []),
   (some ("STUDENT_TESTS"), []),
   (some ("SYSTEM_TEST_CASES"), [⟨CellType.code, "# t.py\nbody"⟩]),
   (some ("SYSTEM_TEST_SETTING"), [⟨CellType.code, "generate_system_test_setting()"⟩])]

/-- The exercise record built from `c9groups`. -/
def c9record : ExerciseRec :=
  ⟨("k"), ("d"), ("v"), ("Title"), [⟨CellType.markdown, "# Title\nbody"⟩],
   ⟨CellType.code, "x = 1"⟩, [], [], [],
   [(("t.py"), ("body\n"), ⟨CellType.code, "# t.py\nbody"⟩)],
   [⟨CellType.code, "generate_system_test_setting()"⟩]⟩

theorem C9_every_field_marker_required_witness :
    (∃ cells, (some ("EXPLANATION"), cells) ∈ c9groups) ∧
    processGroups ("k") ("d") ("v") kwEmpty c9groups = some c9record :=
  ⟨C9_every_field_marker_required ("k") ("d") ("v") c9groups c9record rfl ("EXPLANATION")
    (by simp [requiredFieldNames]), rfl⟩

/-! ### Claim C3: the two ignored fields are skipped before validation -/

/-- Groups whose field name resolves to `WARNING` or
`SYSTEM_TEST_CASES_EXECUTE_CELL` (the two keys `load_exercise` skips). -/
def isIgnoredGroup (g : Option String × List Cell) : Bool :=
  match g.1 with
  | none => false
  | some n =>
    match parseFieldKey n with
    | none => false
    | some fk => fk = FieldKey.WARNING || fk = FieldKey.SYSTEM_TEST_CASES_EXECUTE_CELL

theorem processGroups_filter_ignored : ∀ (gs : List (Option String × List Cell))
    (key d v : String) (kw : KwState),
    processGroups key d v kw gs =
      processGroups key d v kw (gs.filter fun g => !(isIgnoredGroup g)) := by
  intro gs
  induction gs with
  | nil => intro key d v kw; rfl
  | cons g rest ih =>
    intro key d v kw
    obtain ⟨name?, cells⟩ := g
    match name? with
    | none =>
      have hf : isIgnoredGroup (none, cells) = false := rfl
      rw [show List.filter (fun g => !(isIgnoredGroup g)) ((none, cells) :: rest) =
          (none, cells) :: List.filter (fun g => !(isIgnoredGroup g)) rest from by
        simp [hf]]
      rfl
    | some name =>
      match hp : parseFieldKey name with
      | none =>
        have hf : isIgnoredGroup (some name, cells) = false := by
          simp [isIgnoredGroup, hp]
        rw [show List.filter (fun g => !(isIgnoredGroup g)) ((some name, cells) :: rest) =
            (some name, cells) :: List.filter (fun g => !(isIgnoredGroup g)) rest from by
          simp [hf]]
        rw [show processGroups key d v kw ((some name, cells) :: rest) = none from by
          simp only [processGroups, hp]]
        rw [show processGroups key d v kw
            ((some name, cells) :: List.filter (fun g => !(isIgnoredGroup g)) rest) = none from by
          simp only [processGroups, hp]]
      | some fk =>
        by_cases hig : (fk = FieldKey.WARNING || fk = FieldKey.SYSTEM_TEST_CASES_EXECUTE_CELL) = true
        · have hf : isIgnoredGroup (some name, cells) = true := by
            simp only [isIgnoredGroup, hp]
            exact hig
          rw [show List.filter (fun g => !(isIgnoredGroup g)) ((some name, cells) :: rest) =
              List.filter (fun g => !(isIgnoredGroup g)) rest from by
            simp [hf]]
          rw [show processGroups key d v kw ((some name, cells) :: rest) =
              processGroups key d v kw rest from by
            simp only [processGroups, hp, hig, if_true]]
          exact ih key d v kw
        · have hx : (fk = FieldKey.WARNING || fk = FieldKey.SYSTEM_TEST_CASES_EXECUTE_CELL) = false := by
            revert hig
            cases fk = FieldKey.WARNING || fk = FieldKey.SYSTEM_TEST_CASES_EXECUTE_CELL <;> simp
          have hf : isIgnoredGroup (some name, cells) = false := by
            simp only [isIgnoredGroup, hp]
            exact hx
          rw [show List.filter (fun g => !(isIgnoredGroup g)) ((some name, cells) :: rest) =
              (some name, cells) :: List.filter (fun g => !(isIgnoredGroup g)) rest from by
            simp [hf]]
          match happ : applyGroup kw fk cells with
          | none =>
            rw [show processGroups key d v kw ((some name, cells) :: rest) = none from by
              simp only [processGroups, hp, hx, Bool.false_eq_true, if_false, happ]]
            rw [show processGroups key d v kw
                ((some name, cells) :: List.filter (fun g => !(isIgnoredGroup g)) rest) = none from by
              simp only [processGroups, hp, hx, Bool.false_eq_true, if_false, happ]]
          | some kw2 =>
            rw [show processGroups key d v kw ((some name, cells) :: rest) =
                processGroups key d v kw2 rest from by
              simp only [processGroups, hp, hx, Bool.false_eq_true, if_false, happ]]
            rw [show processGroups key d v kw
                ((some name, cells) :: List.filter (fun g => !(isIgnoredGroup g)) rest) =
                processGroups key d v kw2 (List.filter (fun g => !(isIgnoredGroup g)) rest) from by
              simp only [processGroups, hp, hx, Bool.false_eq_true, if_false, happ]]
            exact ih key d v kw2

theorem processGroups_validates : ∀ (gs : List (Option String × List Cell))
    (key d v : String) (kw : KwState) (r : ExerciseRec),
    processGroups key d v kw gs = some r →
    ∀ g ∈ gs, ∀ name, g.1 = some name → ∀ fk, parseFieldKey name = some fk →
      (fk = FieldKey.WARNING || fk = FieldKey.SYSTEM_TEST_CASES_EXECUTE_CELL) = false →
      cardinalityOk (fieldProperties fk) g.2.length = true ∧
      ((fieldProperties fk).code = true → g.2.all (fun c => c.cellType = CellType.code) = true) ∧
      (headedCheck (fieldProperties fk) g.2).isSome = true := by
  intro gs
  induction gs with
  | nil => intro key d v kw r h g hg; exact absurd hg (List.not_mem_nil g)
  | cons g0 rest ih =>
    intro key d v kw r h g hg name hn fk hfk hni
    obtain ⟨name0?, cells0⟩ := g0
    match name0? with
    | none => simp [processGroups] at h
    | some name0 =>
      match hp : parseFieldKey name0 with
      | none => simp [processGroups, hp] at h
      | some fk0 =>
        by_cases hig : (fk0 = FieldKey.WARNING || fk0 = FieldKey.SYSTEM_TEST_CASES_EXECUTE_CELL) = true
        · rw [show processGroups key d v kw ((some name0, cells0) :: rest) =
              processGroups key d v kw rest from by
            simp only [processGroups, hp, hig, if_true]] at h
          rcases List.mem_cons.mp hg with rfl | hg2
          · simp only at hn
            cases hn
            rw [hfk] at hp
            cases hp
            rw [hni] at hig
            exact absurd hig (by simp)
          · exact ih key d v kw r h g hg2 name hn fk hfk hni
        · have hx : (fk0 = FieldKey.WARNING || fk0 = FieldKey.SYSTEM_TEST_CASES_EXECUTE_CELL) = false := by
            revert hig
            cases fk0 = FieldKey.WARNING || fk0 = FieldKey.SYSTEM_TEST_CASES_EXECUTE_CELL <;> simp
          match happ : applyGroup kw fk0 cells0 with
          | none =>
            rw [show processGroups key d v kw ((some name0, cells0) :: rest) = none from by
              simp only [processGroups, hp, hx, Bool.false_eq_true, if_false, happ]] at h
            exact absurd h (by simp)
          | some kw2 =>
            rw [show processGroups key d v kw ((some name0, cells0) :: rest) =
                processGroups key d v kw2 rest from by
              simp only [processGroups, hp, hx, Bool.false_eq_true, if_false, happ]] at h
            rcases List.mem_cons.mp hg with rfl | hg2
            · simp only at hn
              cases hn
              rw [hfk] at hp
              cases hp
              exact applyGroup_checks kw fk cells0 kw2 happ
            · exact ih key d v kw2 r h g hg2 name hn fk hfk hni

/-- C3 (amended): after segmentation every produced field group is validated
against the Field Schema (cardinality, CODE kind, MARKDOWN_HEADED heading)
except the `WARNING` and `SYSTEM_TEST_CASES_EXECUTE_CELL` groups, which
`load_exercise` skips before any validation: removing them from the group
list never changes the result, so an EXECUTE_CELL group with non-code cells
or with a cell count other than one does not fail validation, and neither
field is ever materialized into the Exercise record. -/
theorem C3_amended_ignored_groups_skipped :
    (∀ key d v kw gs, processGroups key d v kw gs =
        processGroups key d v kw (gs.filter fun g => !(isIgnoredGroup g))) ∧
    (∀ key d v kw gs r, processGroups key d v kw gs = some r →
      ∀ g ∈ gs, ∀ name, g.1 = some name → ∀ fk, parseFieldKey name = some fk →
        (fk = FieldKey.WARNING || fk = FieldKey.SYSTEM_TEST_CASES_EXECUTE_CELL) = false →
        cardinalityOk (fieldProperties fk) g.2.length = true ∧
        ((fieldProperties fk).code = true → g.2.all (fun c => c.cellType = CellType.code) = true) ∧
        (headedCheck (fieldProperties fk) g.2).isSome = true) :=
  ⟨fun key d v kw gs => processGroups_filter_ignored gs key d v kw,
   fun key d v kw gs r h => processGroups_validates gs key d v kw r h⟩

/-- Master document whose `SYSTEM_TEST_CASES_EXECUTE_CELL` group holds two
markdown cells — in violation of that field's `SINGLE | CODE` schema. -/
def c3doc : List (CellType × String) :=
  [(CellType.markdown, "***CONTENT_TYPE: CONTENT***"),
   (CellType.markdown, "# Title\nbody"),
   (CellType.markdown, "***CONTENT_TYPE: STUDENT_CODE_CELL***"),
   (CellType.code, "x = 1"),
   (CellType.markdown, "***CONTENT_TYPE: EXPLANATION***"),
   (CellType.markdown, "***CONTENT_TYPE: ANSWER_EXAMPLES***"),
   (CellType.markdown, "***CONTENT_TYPE: STUDENT_TESTS***"),
   (CellType.markdown, "***CONTENT_TYPE: SYSTEM_TEST_CASES***"),
   (CellType.code, "# t.py\nbody"),
   (CellType.markdown, "***CONTENT_TYPE: SYSTEM_TEST_CASES_EXECUTE_CELL***"),
   (CellType.markdown, "not a code cell"),
   (CellType.markdown, "also not a code cell"),
   (CellType.markdown, "***CONTENT_TYPE: SYSTEM_TEST_SETTING***"),
   (CellType.code, "generate_system_test_setting()")]

/-- Counterexample to C3 as stated: loading succeeds although the
`SYSTEM_TEST_CASES_EXECUTE_CELL` group consists of two markdown cells, which
would fail both the cardinality and the CODE validation had the group been
validated. -/
theorem C3_counterexample_execute_cell_not_validated :
    (loadExercise ("k") ("d") ("v") c3doc).isSome = true := by rfl

theorem C3_amended_witness :
    processGroups ("k") ("d") ("v") kwEmpty c9groups =
      processGroups ("k") ("d") ("v") kwEmpty
        (c9groups.filter fun g => !(isIgnoredGroup g)) ∧
    (cardinalityOk (fieldProperties FieldKey.CONTENT)
        [(⟨CellType.markdown, "# Title\nbody"⟩ : Cell)].length = true ∧
      ((fieldProperties FieldKey.CONTENT).code = true →
        [(⟨CellType.markdown, "# Title\nbody"⟩ : Cell)].all
          (fun c => c.cellType = CellType.code) = true) ∧
      (headedCheck (fieldProperties FieldKey.CONTENT)
        [(⟨CellType.markdown, "# Title\nbody"⟩ : Cell)]).isSome = true) :=
  ⟨C3_amended_ignored_groups_skipped.1 ("k") ("d") ("v") kwEmpty c9groups,
   C3_amended_ignored_groups_skipped.2 ("k") ("d") ("v") kwEmpty c9groups c9record rfl
     (some ("CONTENT"), [⟨CellType.markdown, "# Title\nbody"⟩]) (by simp [c9groups])
     ("CONTENT") rfl FieldKey.CONTENT rfl rfl⟩

/-! ### Claim C4: cardinality enforcement -/

/-- Well-formed master document: the three optional fields are declared with
zero cells, `SYSTEM_TEST_CASES_EXECUTE_CELL` with its single code cell. -/
def c4doc : List (CellType × String) :=
  [(CellType.markdown, "***CONTENT_TYPE: CONTENT***"),
   (CellType.markdown, "# Title\nbody"),
   (CellType.markdown, "***CONTENT_TYPE: STUDENT_CODE_CELL***"),
   (CellType.code, "x = 1"),
   (CellType.markdown, "***CONTENT_TYPE: EXPLANATION***"),
   (CellType.markdown, "***CONTENT_TYPE: ANSWER_EXAMPLES***"),
   (CellType.markdown, "***CONTENT_TYPE: STUDENT_TESTS***"),
   (CellType.markdown, "***CONTENT_TYPE: SYSTEM_TEST_CASES***"),
   (CellType.code, "# t.py\nbody"),
   (CellType.markdown, "***CONTENT_TYPE: SYSTEM_TEST_CASES_EXECUTE_CELL***"),
   (CellType.code, "run_tests()"),
   (CellType.markdown, "***CONTENT_TYPE: SYSTEM_TEST_SETTING***"),
   (CellType.code, "generate_system_test_setting()")]

/-- C4: the cardinality validation of `load_exercise` rejects a non-optional
SINGLE field (`STUDENT_CODE_CELL`, `SYSTEM_TEST_SETTING`) with 0 or 2 cells
and accepts exactly 1; rejects a non-optional LIST field (`CONTENT`,
`SYSTEM_TEST_CASES` — the only two) with 0 cells; accepts 0 cells for the
LIST-and-OPTIONAL fields (`ANSWER_EXAMPLES`, `STUDENT_TESTS`,
`EXPLANATION`), in which case the record carries an empty list. -/
theorem C4_cardinality_enforcement :
    cardinalityOk (fieldProperties FieldKey.STUDENT_CODE_CELL) 0 = false ∧
    cardinalityOk (fieldProperties FieldKey.STUDENT_CODE_CELL) 2 = false ∧
    cardinalityOk (fieldProperties FieldKey.STUDENT_CODE_CELL) 1 = true ∧
    cardinalityOk (fieldProperties FieldKey.SYSTEM_TEST_SETTING) 0 = false ∧
    cardinalityOk (fieldProperties FieldKey.SYSTEM_TEST_SETTING) 2 = false ∧
    cardinalityOk (fieldProperties FieldKey.SYSTEM_TEST_SETTING) 1 = true ∧
    cardinalityOk (fieldProperties FieldKey.CONTENT) 0 = false ∧
    cardinalityOk (fieldProperties FieldKey.SYSTEM_TEST_CASES) 0 = false ∧
    cardinalityOk (fieldProperties FieldKey.ANSWER_EXAMPLES) 0 = true ∧
    cardinalityOk (fieldProperties FieldKey.STUDENT_TESTS) 0 = true ∧
    cardinalityOk (fieldProperties FieldKey.EXPLANATION) 0 = true ∧
    (loadExercise ("k") ("d") ("v") c4doc).map ExerciseRec.answerExamples = some [] ∧
    (loadExercise ("k") ("d") ("v") c4doc).map ExerciseRec.studentTests = some [] ∧
    (loadExercise ("k") ("d") ("v") c4doc).map ExerciseRec.explanation = some [] := by
  refine ⟨rfl, rfl, rfl, rfl, rfl, rfl, rfl, rfl, rfl, rfl, rfl, ?_, ?_, ?_⟩ <;> rfl

/-! ### Claim C2: the answer-key test-case summary -/

/-- Join of per-case line lists with one blank separator line between cases
and no trailing separator (the claim's assembly step). -/
def joinWithBlankSep : List (List String) → List String
  | [] => []
  | [l] => l
  | l :: l2 :: rest => l ++ [("")] ++ joinWithBlankSep (l2 :: rest)

/-- Per-case transform as claim C2 words it: drop leading decorator lines
(skip until the first NON-decorator line), then strip every line beginning
with `@judge_util.`. -/
def claimCaseLines (src : String) : List String :=
  ((pySplitLines src).dropWhile fun l => !(isNotDecoratorLine l)).filter isNotDecoratorLine

/-- Summarization as claim C2 describes it. -/
def claimSummarizeTestcases (cases : List (String × String × Cell)) : Option Cell :=
  match cases with
  | [] => none
  | _ :: _ =>
    some ⟨CellType.code, pyJoinNL (joinWithBlankSep (cases.map fun c => claimCaseLines c.2.1))⟩

/-- Per-case transform the source actually performs: drop leading
NON-decorator lines (`itertools.dropwhile(is_not_decorator_line, ...)` skips
until the first decorator line), then strip every decorator line. -/
def codeCaseLines (src : String) : List String :=
  ((pySplitLines src).dropWhile isNotDecoratorLine).filter isNotDecoratorLine

/-- Test-case list on which the two summaries differ: the code drops the
leading non-decorator line `x = 1`, the claim keeps it. -/
def c2cases : List (String × String × Cell) :=
  [(("f"), ("x = 1\n@judge_util.d\ny = 2"), ⟨CellType.code, ("")⟩)]

/-- Counterexample to C2 as stated: `summarize_testcases` drops the leading
non-decorator lines of each case (skip-until-first-DECORATOR), not the
leading decorator lines, so on `c2cases` it keeps only `y = 2` while the
claimed skip-until-first-non-decorator summary keeps `x = 1` as well. -/
theorem C2_counterexample_dropwhile_direction :
    summarizeTestcases c2cases = some ⟨CellType.code, ("y = 2")⟩ ∧
    claimSummarizeTestcases c2cases = some ⟨CellType.code, ("x = 1\ny = 2")⟩ ∧
    summarizeTestcases c2cases ≠ claimSummarizeTestcases c2cases :=
  ⟨rfl, rfl, by decide⟩

theorem summarize_foldl_flatten (cases : List (String × String × Cell)) : ∀ acc : List String,
    cases.foldl
      (fun acc c =>
        acc ++ ((pySplitLines c.2.1).dropWhile isNotDecoratorLine).filter isNotDecoratorLine
          ++ [("")]) acc
      = acc ++ (cases.map fun c => codeCaseLines c.2.1 ++ [("")]).flatten := by
  induction cases with
  | nil => intro acc; simp
  | cons c rest ih =>
    intro acc
    rw [List.foldl_cons, ih]
    simp [codeCaseLines, List.append_assoc]

theorem flatten_sep_dropLast : ∀ ls : List (List String), ls ≠ [] →
    ((ls.map fun l => l ++ [("")]).flatten).dropLast = joinWithBlankSep ls := by
  intro ls
  induction ls with
  | nil => intro h; exact absurd rfl h
  | cons l rest ih =>
    intro _
    cases rest with
    | nil => simp [joinWithBlankSep, List.dropLast_concat]
    | cons l2 rest2 =>
      have hne : ((((l2 :: rest2).map fun l => l ++ [("")])).flatten) ≠ [] := by
        simp
      rw [List.map_cons, List.flatten_cons, List.dropLast_append_of_ne_nil _ hne,
        ih (by simp)]
      simp [joinWithBlankSep]

/-- C2 (amended): for every exercise with a non-empty `system_test_cases`
list, the summarization cell is built by, for each test-case body, dropping
the leading lines up to (and excluding) the first line beginning with
`@judge_util.` — skip-until-first-DECORATOR, so a case with no decorator line
contributes nothing — then stripping every remaining `@judge_util.` line,
and joining the per-case bodies with one blank separator line, omitting the
final trailing separator. -/
theorem C2_amended_summarize_testcases (cases : List (String × String × Cell))
    (h : cases ≠ []) :
    summarizeTestcases cases =
      some ⟨CellType.code, pyJoinNL (joinWithBlankSep (cases.map fun c => codeCaseLines c.2.1))⟩ := by
  obtain ⟨c0, rest, rfl⟩ := List.exists_cons_of_ne_nil h
  simp only [summarizeTestcases]
  rw [summarize_foldl_flatten (c0 :: rest) []]
  simp only [List.nil_append]
  have hne : (((c0 :: rest).map fun c => codeCaseLines c.2.1 ++ [("")]).flatten) ≠ [] := by
    simp
  obtain ⟨hd, tl, heq⟩ := List.exists_cons_of_ne_nil hne
  rw [heq]
  have hdrop := flatten_sep_dropLast (List.map (fun c => codeCaseLines c.2.1) (c0 :: rest))
    (by simp)
  rw [List.map_map] at hdrop
  have : ((((c0 :: rest).map fun c => codeCaseLines c.2.1 ++ [("")])).flatten).dropLast =
      joinWithBlankSep ((c0 :: rest).map fun c => codeCaseLines c.2.1) := by
    rw [← hdrop]
    rfl
  rw [heq] at this
  rw [this]

theorem C2_amended_summarize_testcases_witness :
    c2cases ≠ [] ∧
    summarizeTestcases c2cases =
      some ⟨CellType.code,
        pyJoinNL (joinWithBlankSep (c2cases.map fun c => codeCaseLines c.2.1))⟩ :=
  ⟨by decide, C2_amended_summarize_testcases c2cases (by decide)⟩

/-! ### Claim C5: file extraction -/

theorem drop_takeWhile_length (p : Char → Bool) (l : List Char) :
    l.drop (l.takeWhile p).length = l.dropWhile p := by
  calc l.drop (l.takeWhile p).length
      = (l.takeWhile p ++ l.dropWhile p).drop (l.takeWhile p).length := by
        rw [List.takeWhile_append_dropWhile]
    _ = l.dropWhile p := List.drop_left _ _

theorem isPySpace_ne_slash {c : Char} (h : isPySpace c = true) : c ≠ ('/') := by
  intro hc
  subst hc
  simp [isPySpace] at h

theorem isPySpace_ne_hash {c : Char} (h : isPySpace c = true) : ¬ (c = '#') := by
  intro hc
  subst hc
  simp [isPySpace] at h

/-- Heading shape claim C5 describes for the trimmed first line of a file
code cell: one or more `#`, at least one whitespace character, then a
captured filename of 1 to 255 characters containing no `/`. -/
def specFileHeading (line : String) : Prop :=
  ∃ (a : Nat) (w f : List Char),
    line.data = List.replicate a '#' ++ w ++ f ∧ 1 ≤ a ∧ w ≠ [] ∧
    (∀ c ∈ w, isPySpace c = true) ∧ 1 ≤ f.length ∧ f.length ≤ 255 ∧ ('/') ∉ f

theorem contains_eq_false_iff (l : List Char) (c : Char) :
    (l.contains c = false) ↔ c ∉ l := by
  rw [List.contains_eq_any_beq, List.any_eq_false]
  constructor
  · intro h hc
    exact absurd (by simp : (c == c) = true) (h c hc)
  · intro h x hx hcx
    rw [beq_iff_eq] at hcx
    subst hcx
    exact h hx

/-- Normal form of `matchFileHeading` with the two `drop`-by-`takeWhile`
lengths folded into `dropWhile`. -/
theorem matchFileHeading_spec (s : String) :
    matchFileHeading s =
      (let rest := s.data.dropWhile fun c => c = '#'
       let ws := rest.takeWhile isPySpace
       let tl := rest.dropWhile isPySpace
       if (s.data.takeWhile fun c => c = '#').length = 0 then none
       else if ws.length = 0 then none
       else if tl.length = 0 then
         if 2 ≤ ws.length then some ⟨rest.drop (ws.length - 1)⟩ else none
       else if tl.length ≤ 255 && !(tl.contains ('/')) then some ⟨tl⟩
       else none) := by
  simp only [matchFileHeading, drop_takeWhile_length]

theorem matchFileHeading_isSome_iff (s : String) :
    (matchFileHeading s).isSome = true ↔ specFileHeading s := by
  have hTakeEq : s.data.takeWhile (fun c => c = '#') =
      List.replicate (s.data.takeWhile (fun c => c = '#')).length '#' := by
    apply List.eq_replicate_of_mem
    intro b hb
    have := List.mem_takeWhile_imp hb
    simpa using this
  have hSplit : s.data = s.data.takeWhile (fun c => c = '#') ++
      s.data.dropWhile (fun c => c = '#') :=
    (List.takeWhile_append_dropWhile _ _).symm
  constructor
  · intro h
    rw [matchFileHeading_spec] at h
    simp only at h
    set rest := s.data.dropWhile (fun c => c = '#') with hrestdef
    set ws := rest.takeWhile isPySpace with hwsdef
    set tl := rest.dropWhile isPySpace with htldef
    have hwstl : rest = ws ++ tl := (List.takeWhile_append_dropWhile _ _).symm
    by_cases h1 : (s.data.takeWhile fun c => c = '#').length = 0
    · rw [if_pos h1] at h
      exact absurd h (by simp)
    rw [if_neg h1] at h
    by_cases h2 : ws.length = 0
    · rw [if_pos h2] at h
      exact absurd h (by simp)
    rw [if_neg h2] at h
    have hwsmem : ∀ c ∈ ws, isPySpace c = true := fun c hc => List.mem_takeWhile_imp hc
    by_cases h3 : tl.length = 0
    · rw [if_pos h3] at h
      by_cases h4 : 2 ≤ ws.length
      · have htlnil : tl = [] := List.length_eq_zero.mp h3
        have hrestws : rest = ws := by rw [hwstl, htlnil, List.append_nil]
        have hner : ws ≠ [] := by
          intro hr
          rw [hr] at h2
          simp at h2
        refine ⟨(s.data.takeWhile fun c => c = '#').length, ws.dropLast,
          [ws.getLast hner], ?_, ?_, ?_, ?_, ?_, ?_, ?_⟩
        · conv_lhs => rw [hSplit]
          rw [hrestws, ← hTakeEq, List.append_assoc, List.dropLast_append_getLast hner]
        · omega
        · have hlen : ws.dropLast.length = ws.length - 1 := List.length_dropLast ws
          intro hnil
          rw [hnil] at hlen
          simp only [List.length_nil] at hlen
          omega
        · intro c hc
          exact hwsmem c (List.dropLast_subset ws hc)
        · simp
        · simp
        · intro hmem
          simp only [List.mem_singleton] at hmem
          exact isPySpace_ne_slash (hwsmem _ (List.getLast_mem hner)) hmem.symm
      · rw [if_neg h4] at h
        exact absurd h (by simp)
    rw [if_neg h3] at h
    by_cases h5 : (decide (tl.length ≤ 255) && !tl.contains ('/')) = true
    · simp only [Bool.and_eq_true, decide_eq_true_eq, Bool.not_eq_true'] at h5
      refine ⟨(s.data.takeWhile fun c => c = '#').length, ws, tl, ?_, ?_, ?_, ?_, ?_, ?_, ?_⟩
      · conv_lhs => rw [hSplit]
        rw [hwstl, ← hTakeEq, List.append_assoc]
      · omega
      · intro hnil
        rw [hnil] at h2
        simp at h2
      · exact hwsmem
      · omega
      · exact h5.1
      · exact (contains_eq_false_iff _ _).mp h5.2
    · rw [if_neg h5] at h
      exact absurd h (by simp)
  · rintro ⟨a, w, f, hd, ha, hwne, hws, hf1, hf255, hfslash⟩
    obtain ⟨w0, wrest, rfl⟩ := List.exists_cons_of_ne_nil hwne
    have hw0 : isPySpace w0 = true := hws w0 (by simp)
    have hTake : s.data.takeWhile (fun c => c = '#') = List.replicate a '#' := by
      rw [hd, List.append_assoc]
      rw [List.takeWhile_append_of_pos
        (by intro x hx; simpa using List.eq_of_mem_replicate hx)]
      simp only [List.cons_append, List.takeWhile_cons]
      rw [if_neg (by simpa using isPySpace_ne_hash hw0)]
      simp
    have hDrop : s.data.dropWhile (fun c => c = '#') = (w0 :: wrest) ++ f := by
      rw [hd, List.append_assoc]
      rw [List.dropWhile_append_of_pos
        (by intro x hx; simpa using List.eq_of_mem_replicate hx)]
      simp only [List.cons_append, List.dropWhile_cons]
      rw [if_neg (by simpa using isPySpace_ne_hash hw0)]
    have hwsTake : ((w0 :: wrest) ++ f).takeWhile isPySpace =
        (w0 :: wrest) ++ f.takeWhile isPySpace :=
      List.takeWhile_append_of_pos (by intro x hx; exact hws x hx)
    have hwsDrop : ((w0 :: wrest) ++ f).dropWhile isPySpace = f.dropWhile isPySpace :=
      List.dropWhile_append_of_pos (by intro x hx; exact hws x hx)
    rw [matchFileHeading_spec]
    simp only [hDrop, hwsTake, hwsDrop]
    rw [if_neg (by rw [hTake, List.length_replicate]; omega)]
    rw [if_neg (by simp)]
    by_cases hsplit : f.dropWhile isPySpace = []
    · have hfall : f.takeWhile isPySpace = f := by
        conv_rhs => rw [← List.takeWhile_append_dropWhile isPySpace f]
        rw [hsplit, List.append_nil]
      rw [hsplit]
      rw [if_pos (by simp)]
      rw [if_pos (by simp only [List.length_append, List.length_cons, hfall]; omega)]
      simp
    · have hlen1 : 0 < (f.dropWhile isPySpace).length := List.length_pos.mpr hsplit
      rw [if_neg (by omega)]
      have hsub : List.Sublist (f.dropWhile isPySpace) f := List.dropWhile_sublist isPySpace
      have hle : (f.dropWhile isPySpace).length ≤ f.length := hsub.length_le
      have hnoslash : (f.dropWhile isPySpace).contains ('/') = false :=
        (contains_eq_false_iff _ _).mpr (fun hm => hfslash (hsub.subset hm))
      rw [if_pos (by simp only [hnoslash, Bool.not_false, Bool.and_true,
        decide_eq_true_eq]; omega)]
      simp

theorem matchFileHeading_some_props (s : String) (name : String)
    (h : matchFileHeading s = some name) :
    1 ≤ name.length ∧ name.length ≤ 255 ∧ ('/') ∉ name.data := by
  rw [matchFileHeading_spec] at h
  simp only at h
  set rest := s.data.dropWhile (fun c => c = '#') with hrestdef
  set ws := rest.takeWhile isPySpace with hwsdef
  set tl := rest.dropWhile isPySpace with htldef
  have hwsmem : ∀ c ∈ ws, isPySpace c = true := fun c hc => List.mem_takeWhile_imp hc
  by_cases h1 : (s.data.takeWhile fun c => c = '#').length = 0
  · rw [if_pos h1] at h
    exact absurd h (by simp)
  rw [if_neg h1] at h
  by_cases h2 : ws.length = 0
  · rw [if_pos h2] at h
    exact absurd h (by simp)
  rw [if_neg h2] at h
  by_cases h3 : tl.length = 0
  · rw [if_pos h3] at h
    by_cases h4 : 2 ≤ ws.length
    · rw [if_pos h4] at h
      have htlnil : tl = [] := List.length_eq_zero.mp h3
      have hrestws : rest = ws := by
        conv_lhs => rw [← List.takeWhile_append_dropWhile isPySpace rest]
        rw [← htldef, htlnil, List.append_nil, hwsdef]
      cases h
      refine ⟨?_, ?_, ?_⟩
      · show 1 ≤ (rest.drop (ws.length - 1)).length
        rw [List.length_drop, hrestws]
        omega
      · show (rest.drop (ws.length - 1)).length ≤ 255
        rw [List.length_drop, hrestws]
        omega
      · show ('/') ∉ rest.drop (ws.length - 1)
        intro hmem
        have hm : ('/') ∈ rest := List.drop_subset _ rest hmem
        rw [hrestws] at hm
        exact isPySpace_ne_slash (hwsmem _ hm) rfl
    · rw [if_neg h4] at h
      exact absurd h (by simp)
  rw [if_neg h3] at h
  by_cases h5 : (decide (tl.length ≤ 255) && !tl.contains ('/')) = true
  · rw [if_pos h5] at h
    simp only [Bool.and_eq_true, decide_eq_true_eq, Bool.not_eq_true'] at h5
    cases h
    refine ⟨?_, ?_, ?_⟩
    · show 1 ≤ tl.length
      omega
    · exact h5.1
    · exact (contains_eq_false_iff _ _).mp h5.2
  · rw [if_neg h5] at h
    exact absurd h (by simp)

theorem splitFileCodeCell_nil (cell : Cell)
    (hsp : pySplitLinesKeep (pyStrip cell.source) = []) :
    splitFileCodeCell cell = none := by
  simp [splitFileCodeCell, hsp]

theorem splitFileCodeCell_cons (cell : Cell) (hc : cell.cellType = CellType.code)
    (l0 : String) (restLines : List String)
    (hsp : pySplitLinesKeep (pyStrip cell.source) = l0 :: restLines) :
    splitFileCodeCell cell =
      (match matchFileHeading (pyStrip l0) with
       | none => none
       | some name => some (name, pyStrip (pyJoin restLines) ++ ("\n"), cell)) := by
  simp [splitFileCodeCell, hc, hsp]

/-- C5: on a code cell, `split_file_code_cell` succeeds exactly when the
trimmed first line of the trimmed source fully matches the heading pattern
`#+ <filename>` with a captured filename of 1 to 255 characters containing
no `/`; on success it returns that filename (1-255 characters, no `/`)
together with the remaining lines trimmed and newline-terminated, and the
original cell.  The example `"# notes.txt\nhello\n"` yields filename
`notes.txt` and content `"hello\n"`, and a cell whose first line is
`"print(1)"` fails (see the witness). -/
theorem C5_file_extraction (cell : Cell) (hc : cell.cellType = CellType.code) :
    ((splitFileCodeCell cell).isSome = true ↔
      ∃ l0 rest, pySplitLinesKeep (pyStrip cell.source) = l0 :: rest ∧
        specFileHeading (pyStrip l0)) ∧
    (∀ name content orig, splitFileCodeCell cell = some (name, content, orig) →
      orig = cell ∧ 1 ≤ name.length ∧ name.length ≤ 255 ∧ ('/') ∉ name.data ∧
      content = pyStrip (pyJoin ((pySplitLinesKeep (pyStrip cell.source)).drop 1)) ++ ("\n")) := by
  constructor
  · cases hsp : pySplitLinesKeep (pyStrip cell.source) with
    | nil =>
      rw [splitFileCodeCell_nil cell hsp]
      simp only [Option.isSome_none, Bool.false_eq_true, false_iff]
      rintro ⟨l0, rest, heq, -⟩
      exact absurd heq (by simp)
    | cons l0 restLines =>
      rw [splitFileCodeCell_cons cell hc l0 restLines hsp]
      cases hm : matchFileHeading (pyStrip l0) with
      | none =>
        simp only [Option.isSome_none, Bool.false_eq_true, false_iff]
        rintro ⟨l0', rest', heq, hspec⟩
        injection heq with h1 h2
        subst h1
        rw [← matchFileHeading_isSome_iff, hm] at hspec
        exact absurd hspec (by simp)
      | some name =>
        simp only [Option.isSome_some, true_iff]
        refine ⟨l0, restLines, rfl, ?_⟩
        rw [← matchFileHeading_isSome_iff, hm]
        rfl
  · intro name content orig h
    cases hsp : pySplitLinesKeep (pyStrip cell.source) with
    | nil =>
      rw [splitFileCodeCell_nil cell hsp] at h
      exact absurd h (by simp)
    | cons l0 restLines =>
      rw [splitFileCodeCell_cons cell hc l0 restLines hsp] at h
      cases hm : matchFileHeading (pyStrip l0) with
      | none =>
        rw [hm] at h
        exact absurd h (by simp)
      | some name' =>
        rw [hm] at h
        simp only [Option.some.injEq, Prod.mk.injEq] at h
        obtain ⟨hn, hcont, horig⟩ := h
        have hprops := matchFileHeading_some_props (pyStrip l0) name' hm
        subst hn
        refine ⟨horig.symm, hprops.1, hprops.2.1, hprops.2.2, ?_⟩
        rw [← hcont]
        simp

theorem C5_file_extraction_witness :
    splitFileCodeCell ⟨CellType.code, ("# notes.txt\nhello\n")⟩ =
      some (("notes.txt"), ("hello\n"), ⟨CellType.code, ("# notes.txt\nhello\n")⟩) ∧
    splitFileCodeCell ⟨CellType.code, ("print(1)")⟩ = none ∧
    ((splitFileCodeCell ⟨CellType.code, ("# notes.txt\nhello\n")⟩).isSome = true ↔
      ∃ l0 rest,
        pySplitLinesKeep (pyStrip ("# notes.txt\nhello\n")) = l0 :: rest ∧
        specFileHeading (pyStrip l0)) :=
  ⟨rfl, rfl, (C5_file_extraction ⟨CellType.code, ("# notes.txt\nhello\n")⟩ rfl).1⟩

/-! ### Claim C7: redirection and the submission cell -/

theorem hasPfx_append_self (p t : List Char) : hasPfx p (p ++ t) = true := by
  induction p with
  | nil => rfl
  | cons a p ih => simp [hasPfx, ih]

theorem hasPfx_iff (p : List Char) : ∀ l, hasPfx p l = true ↔ ∃ t, l = p ++ t := by
  induction p with
  | nil => intro l; simp [hasPfx]
  | cons a p ih =>
    intro l
    cases l with
    | nil => simp [hasPfx]
    | cons c cs =>
      simp only [hasPfx, Bool.and_eq_true, decide_eq_true_eq, ih cs, List.cons_append,
        List.cons.injEq]
      constructor
      · rintro ⟨rfl, t, rfl⟩
        exact ⟨t, rfl, rfl⟩
      · rintro ⟨t, rfl, rfl⟩
        exact ⟨rfl, t, rfl⟩

theorem tabSpace_isPySpace {c : Char} (h : tabSpace c = true) : isPySpace c = true := by
  simp only [tabSpace, Bool.or_eq_true, decide_eq_true_eq] at h
  rcases h with rfl | rfl <;> decide

theorem bool_not_true {b : Bool} (h : ¬ b = true) : b = false := by
  cases b
  · rfl
  · exact absurd rfl h

theorem lazyStem_sound : ∀ (l acc : List Char) (out : List Char),
    lazyStem acc l = some out →
    ∃ stem rest, l = stem ++ ipynbLit ++ rest ∧ stem ≠ [] ∧
      (∀ c ∈ stem, isPySpace c = false) ∧
      (∀ s1 s2, stem = s1 ++ s2 → s1 ≠ [] → s2 ≠ [] →
        hasPfx ipynbLit (s2 ++ ipynbLit ++ rest) = false) ∧
      out = acc ++ stem := by
  intro l
  induction l with
  | nil => intro acc out h; simp [lazyStem] at h
  | cons c rest0 ih =>
    intro acc out h
    simp only [lazyStem] at h
    by_cases hws : isPySpace c = true
    · rw [if_pos hws] at h
      exact absurd h (by simp)
    rw [if_neg hws] at h
    by_cases hp : hasPfx ipynbLit rest0 = true
    · rw [if_pos hp] at h
      simp only [Option.some.injEq] at h
      obtain ⟨t, rfl⟩ := (hasPfx_iff ipynbLit rest0).mp hp
      refine ⟨[c], t, by simp, by simp, ?_, ?_, h.symm⟩
      · intro x hx
        simp only [List.mem_singleton] at hx
        subst hx
        exact bool_not_true hws
      · intro s1 s2 hsplit h1 h2
        have := congrArg List.length hsplit
        simp only [List.length_singleton, List.length_append] at this
        have l1 : 0 < s1.length := List.length_pos.mpr h1
        have l2 : 0 < s2.length := List.length_pos.mpr h2
        omega
    · rw [if_neg hp] at h
      obtain ⟨stem', rest', hdec, hne, hnws, hmin, hout⟩ := ih (acc ++ [c]) out h
      refine ⟨c :: stem', rest', by rw [hdec]; simp, by simp, ?_, ?_, ?_⟩
      · intro x hx
        rcases List.mem_cons.mp hx with rfl | hx2
        · exact bool_not_true hws
        · exact hnws x hx2
      · intro s1 s2 hsplit h1 h2
        cases s1 with
        | nil => exact absurd rfl h1
        | cons a s1x =>
          rw [List.cons_append] at hsplit
          injection hsplit with hac hrest2
          cases s1x with
          | nil =>
            simp only [List.nil_append] at hrest2
            rw [← hrest2, ← hdec]
            exact bool_not_true hp
          | cons b s1y =>
            exact hmin (b :: s1y) s2 hrest2 (by simp) h2
      · rw [hout]
        simp

theorem lazyStem_complete : ∀ (stem : List Char), stem ≠ [] →
    ∀ (acc rest : List Char),
    (∀ c ∈ stem, isPySpace c = false) →
    (∀ s1 s2, stem = s1 ++ s2 → s1 ≠ [] → s2 ≠ [] →
      hasPfx ipynbLit (s2 ++ ipynbLit ++ rest) = false) →
    lazyStem acc (stem ++ ipynbLit ++ rest) = some (acc ++ stem) := by
  intro stem
  induction stem with
  | nil => intro h; exact absurd rfl h
  | cons c stem' ih =>
    intro _ acc rest hnws hmin
    rw [List.cons_append, List.cons_append]
    simp only [lazyStem]
    rw [if_neg (by rw [hnws c (by simp)]; simp)]
    cases stem' with
    | nil =>
      rw [List.nil_append, if_pos (hasPfx_append_self ipynbLit rest)]
    | cons b stem'' =>
      rw [if_neg (by
        rw [hmin [c] (b :: stem'') rfl (by simp) (by simp)]
        simp)]
      have := ih (by simp) (acc ++ [c]) rest
        (fun x hx => hnws x (List.mem_cons_of_mem c hx))
        (fun s1 s2 hsplit h1 h2 => hmin (c :: s1) s2 (by rw [hsplit]; rfl) (by simp) h2)
      rw [show ((b :: stem'') ++ ipynbLit ++ rest) =
          (b :: stem'') ++ (ipynbLit ++ rest) from by simp] at this
      rw [show ((b :: stem'') ++ (ipynbLit ++ rest)) =
          (b :: stem'') ++ ipynbLit ++ rest from by simp] at this
      rw [this]
      simp

/-- Decomposition of a source string matched by the (amended) redirect
pattern `#[ \t]*redirect-to[ \t]*:[ \t]*(\S+?\.ipynb)` capturing `f`:
maximal space-or-tab runs, a nonempty all-non-whitespace stem followed by
`.ipynb`, the stem lazily minimal (no shorter nonempty stem already ends at
an occurrence of `.ipynb`), and `f` the matched filename including the
`.ipynb` suffix. -/
def redirDecomp (s f : String) : Prop :=
  ∃ w1 w2 w3 stem rest : List Char,
    s.data = '#' :: (w1 ++ redirectLit ++ w2 ++ ':' :: (w3 ++ stem ++ ipynbLit ++ rest)) ∧
    (∀ c ∈ w1, tabSpace c = true) ∧ (∀ c ∈ w2, tabSpace c = true) ∧
    (∀ c ∈ w3, tabSpace c = true) ∧
    stem ≠ [] ∧ (∀ c ∈ stem, isPySpace c = false) ∧
    (∀ s1 s2, stem = s1 ++ s2 → s1 ≠ [] → s2 ≠ [] →
      hasPfx ipynbLit (s2 ++ ipynbLit ++ rest) = false) ∧
    f.data = stem ++ ipynbLit

theorem matchRedirect_iff (s f : String) :
    matchRedirect s = some f ↔ redirDecomp s f := by
  constructor
  · intro h
    rw [matchRedirect] at h
    cases hd : s.data with
    | nil => rw [hd] at h; exact absurd h (by simp [matchRedirectChars])
    | cons c rest1 =>
      rw [hd] at h
      simp only [matchRedirectChars] at h
      by_cases hc : c = '#'
      case neg => rw [if_neg hc] at h; exact absurd h (by simp)
      rw [if_pos hc] at h
      subst hc
      by_cases hp1 : hasPfx redirectLit (rest1.dropWhile tabSpace) = true
      case neg => rw [if_neg hp1] at h; exact absurd h (by simp)
      rw [if_pos hp1] at h
      obtain ⟨t, ht⟩ := (hasPfx_iff redirectLit _).mp hp1
      have hdrop11 : (rest1.dropWhile tabSpace).drop 11 = t := by
        rw [ht]
        exact List.drop_left' (by rfl)
      rw [hdrop11] at h
      by_cases hhead : (t.dropWhile tabSpace).head? = some (':')
      case neg => rw [if_neg hhead] at h; exact absurd h (by simp)
      rw [if_pos hhead] at h
      obtain ⟨r3, htd⟩ : ∃ r3, t.dropWhile tabSpace = ':' :: r3 := by
        cases htd' : t.dropWhile tabSpace with
        | nil => rw [htd'] at hhead; exact absurd hhead (by simp)
        | cons d r3 =>
          rw [htd'] at hhead
          simp only [List.head?_cons, Option.some.injEq] at hhead
          exact ⟨r3, by rw [hhead]⟩
      rw [htd] at h
      simp only [List.tail_cons] at h
      cases hls : lazyStem [] (r3.dropWhile tabSpace) with
      | none => rw [hls] at h; exact absurd h (by simp)
      | some stem =>
        rw [hls] at h
        simp only [Option.map_some', Option.some.injEq] at h
        obtain ⟨stem', rest', hdec, hne, hnws, hmin, hout⟩ := lazyStem_sound _ [] stem hls
        simp only [List.nil_append] at hout
        subst hout
        set w1 := rest1.takeWhile tabSpace with hw1def
        set w2 := t.takeWhile tabSpace with hw2def
        set w3 := r3.takeWhile tabSpace with hw3def
        have e1 : rest1 = w1 ++ (redirectLit ++ t) := by
          conv_lhs => rw [← List.takeWhile_append_dropWhile tabSpace rest1]
          rw [ht]
        have e2 : t = w2 ++ (':' :: r3) := by
          conv_lhs => rw [← List.takeWhile_append_dropWhile tabSpace t]
          rw [htd]
        have e3 : r3 = w3 ++ (stem ++ ipynbLit ++ rest') := by
          conv_lhs => rw [← List.takeWhile_append_dropWhile tabSpace r3]
          rw [hdec]
        refine ⟨w1, w2, w3, stem, rest', ?_, ?_, ?_, ?_, hne, hnws, hmin, ?_⟩
        · rw [hd, e1, e2, e3]
          simp [List.append_assoc]
        · intro x hx; exact List.mem_takeWhile_imp hx
        · intro x hx; exact List.mem_takeWhile_imp hx
        · intro x hx; exact List.mem_takeWhile_imp hx
        · rw [← h]
  · rintro ⟨w1, w2, w3, stem, rest, hdata, hw1, hw2, hw3, hne, hnws, hmin, hf⟩
    obtain ⟨s0, stem1, rfl⟩ := List.exists_cons_of_ne_nil hne
    have hs0 : isPySpace s0 = false := hnws s0 (by simp)
    have hs0t : tabSpace s0 = false := by
      cases hts : tabSpace s0
      · rfl
      · rw [tabSpace_isPySpace hts] at hs0
        cases hs0
    rw [matchRedirect, hdata]
    simp only [matchRedirectChars, if_true]
    have e1 : (w1 ++ redirectLit ++ w2 ++ ':' :: (w3 ++ (s0 :: stem1) ++ ipynbLit ++ rest)).dropWhile tabSpace
        = redirectLit ++ (w2 ++ ':' :: (w3 ++ (s0 :: stem1) ++ ipynbLit ++ rest)) := by
      rw [List.append_assoc, List.append_assoc]
      rw [List.dropWhile_append_of_pos (by intro a ha; exact hw1 a ha)]
      rw [show redirectLit ++ (w2 ++ ':' :: (w3 ++ (s0 :: stem1) ++ ipynbLit ++ rest)) =
          'r' :: (("edirect-to").data ++ (w2 ++ ':' :: (w3 ++ (s0 :: stem1) ++ ipynbLit ++ rest))) from rfl]
      rw [List.dropWhile_cons, if_neg (by decide)]
    rw [e1]
    rw [if_pos (hasPfx_append_self redirectLit _)]
    rw [List.drop_left' (by rfl)]
    have e2 : (w2 ++ ':' :: (w3 ++ (s0 :: stem1) ++ ipynbLit ++ rest)).dropWhile tabSpace
        = ':' :: (w3 ++ (s0 :: stem1) ++ ipynbLit ++ rest) := by
      rw [List.dropWhile_append_of_pos (by intro a ha; exact hw2 a ha)]
      rw [List.dropWhile_cons, if_neg (by decide)]
    rw [e2]
    rw [if_pos (by simp)]
    simp only [List.tail_cons]
    have e3 : (w3 ++ (s0 :: stem1) ++ ipynbLit ++ rest).dropWhile tabSpace
        = (s0 :: stem1) ++ ipynbLit ++ rest := by
      rw [List.append_assoc, List.append_assoc]
      rw [List.dropWhile_append_of_pos (by intro a ha; exact hw3 a ha)]
      rw [List.cons_append, List.dropWhile_cons, if_neg (by rw [hs0t]; simp)]
      simp [List.append_assoc]
    rw [e3]
    rw [lazyStem_complete (s0 :: stem1) (by simp) [] rest hnws hmin]
    simp only [List.nil_append, Option.map_some', Option.some.injEq]
    cases f
    simp only at hf
    rw [hf]

/-- Greedy stem search for the pattern C7 claims: `(\S+\.ipynb)` lets `\S+`
take as many characters as possible before `.ipynb`. -/
def greedyFrom : Nat → List Char → Option (List Char)
  | 0, _ => none
  | j + 1, l =>
    if hasPfx ipynbLit (l.drop (j + 1)) then some (l.take (j + 1) ++ ipynbLit)
    else greedyFrom j l

/-- Matcher for the directive pattern exactly as claim C7 states it,
`^#\s*redirect-to:\s*(\S+\.ipynb)`: arbitrary whitespace (`\s`, not only
space and tab) around the keyword, a colon immediately after `redirect-to`,
and a greedy stem. -/
def claimRedirectPattern (s : String) : Option String :=
  match s.data with
  | [] => none
  | c :: rest =>
    if c = '#' then
      let r1 := rest.dropWhile isPySpace
      if hasPfx (("redirect-to:").data) r1 then
        let r2 := (r1.drop 12).dropWhile isPySpace
        (greedyFrom (r2.takeWhile fun c => !(isPySpace c)).length r2).map
          fun g => (⟨g⟩ : String)
      else none
    else none

/-- Exercise whose student code cell carries a redirect directive with a
space before the colon — accepted by the source pattern, rejected by the
claimed pattern. -/
def c7exercise : ExerciseRec :=
  ⟨("ex0"), ("d"), ("v"), ("T"), [], ⟨CellType.code, ("# redirect-to : ex1.ipynb")⟩,
   [], [], [], [], []⟩

/-- Counterexample to C7 as stated: the claimed pattern
`^#\s*redirect-to:\s*(\S+\.ipynb)` requires the colon to follow
`redirect-to` immediately, so it rejects `# redirect-to : ex1.ipynb`, which
`submission_redirection()` accepts; moreover the claimed greedy group
captures `a.ipynbx.ipynb` where the code's lazy group captures `a.ipynb`. -/
theorem C7_counterexample_redirect_pattern :
    submissionRedirection c7exercise = some ("ex1.ipynb") ∧
    claimRedirectPattern ("# redirect-to : ex1.ipynb") = none ∧
    claimRedirectPattern ("#redirect-to:a.ipynbx.ipynb") = some ("a.ipynbx.ipynb") ∧
    matchRedirect ("#redirect-to:a.ipynbx.ipynb") = some ("a.ipynb") :=
  ⟨rfl, rfl, rfl, rfl⟩

set_option maxRecDepth 8000 in
/-- C7 (amended): `submission_redirection()` returns a target filename `f`
exactly when the source of the student code cell starts with a match of
`#[ \t]*redirect-to[ \t]*:[ \t]*(\S+?\.ipynb)` capturing `f` — the space-tab
runs are maximal, the lazily captured filename is the shortest one ending in
`.ipynb`, and a match can never extend past the first line.
`submission_cell()` renders the fixed bilingual placeholder naming the
redirect target when redirected, and otherwise renders the student code
cell's source unmodified inside the fixed banner comment embedding the
exercise key in the machine-checkable marker line `<[ <key> ]>`. -/
theorem C7_amended_redirection_and_submission_cell (e : ExerciseRec) :
    (∀ f, submissionRedirection e = some f ↔ redirDecomp e.studentCodeCell.source f) ∧
    (∀ rt, submissionRedirection e = some rt →
      submissionCell e = ⟨CellType.code, redirectionCellText rt⟩) ∧
    (submissionRedirection e = none →
      submissionCell e = ⟨CellType.code, submissionCellText e.key e.studentCodeCell.source⟩ ∧
      (∃ pre post, (submissionCell e).source.data =
        pre ++ (bannerMarker e.key).data ++ post) ∧
      (∃ pre2, (submissionCell e).source.data = pre2 ++ e.studentCodeCell.source.data)) := by
  refine ⟨fun f => matchRedirect_iff _ f, ?_, ?_⟩
  · intro rt hrt
    simp [submissionCell, hrt]
  · intro hnone
    refine ⟨by simp [submissionCell, hnone], ?_, ?_⟩
    · refine ⟨("##########################################################\n##  ").data,
        (" 解答セル (Answer cell)\n##  このコメントの書き変えを禁ず (Never edit this comment)\n##########################################################\n\n").data
          ++ e.studentCodeCell.source.data, ?_⟩
      simp [submissionCell, hnone, submissionCellText, bannerMarker, List.append_assoc]
    · refine ⟨("##########################################################\n##  <[ ").data
          ++ e.key.data
          ++ (" ]> 解答セル (Answer cell)\n##  このコメントの書き変えを禁ず (Never edit this comment)\n##########################################################\n\n").data, ?_⟩
      simp [submissionCell, hnone, submissionCellText, List.append_assoc]

theorem C7_amended_redirection_witness :
    submissionCell c7exercise = ⟨CellType.code, redirectionCellText ("ex1.ipynb")⟩ ∧
    redirDecomp ("# redirect-to : ex1.ipynb") ("ex1.ipynb") :=
  ⟨(C7_amended_redirection_and_submission_cell c7exercise).2.1 ("ex1.ipynb") rfl,
   ((C7_amended_redirection_and_submission_cell c7exercise).1 ("ex1.ipynb")).mp rfl⟩

/-! ### Claim C8: the redirect stub -/

/-- C8: for an exercise with a regex-safe key that redirects to a target
document, `create_redirect_form` succeeds — and then writes the submission
metadata registering the exercise's key and version into the target —
exactly when some code cell of the target contains a line with the banner
marker `<[ <key> ]>`; when no such line exists the operation fails with the
source's missing-marker assertion (`... has no answer cell for ...`).  The
regex-safe hypothesis is what makes `re.search` of the pattern with the key
interpolated unescaped a literal substring search. -/
theorem C8_redirect_stub (e : ExerciseRec) (d : List RawCell) (target : String)
    (hsafe : keyRegexSafe e.key = true) (hred : submissionRedirection e = some target) :
    ((createRedirectForm e d).isSome = true ↔
      ∃ c ∈ d, c.cellTypeValue = CellType.value CellType.code ∧
        ∃ line ∈ c.sourceLines, pyContains line (bannerMarker e.key) = true) ∧
    (∀ md, createRedirectForm e d = some md →
      md = submissionMetadata [(e.key, e.version)] true) := by
  constructor
  · rw [createRedirectForm, hred]
    by_cases hany : d.any (fun c => c.cellTypeValue = CellType.value CellType.code &&
        c.sourceLines.any fun line => pyContains line (bannerMarker e.key)) = true
    · rw [if_pos hany]
      simp only [Option.isSome_some, true_iff]
      rw [List.any_eq_true] at hany
      obtain ⟨c, hc, hcond⟩ := hany
      simp only [Bool.and_eq_true, decide_eq_true_eq, List.any_eq_true] at hcond
      exact ⟨c, hc, hcond.1, hcond.2⟩
    · rw [if_neg hany]
      simp only [Option.isSome_none, Bool.false_eq_true, false_iff]
      rintro ⟨c, hc, hct, line, hline, hcont⟩
      apply hany
      rw [List.any_eq_true]
      refine ⟨c, hc, ?_⟩
      simp only [Bool.and_eq_true, decide_eq_true_eq, List.any_eq_true]
      exact ⟨hct, line, hline, hcont⟩
  · intro md hmd
    rw [createRedirectForm, hred] at hmd
    by_cases hany : d.any (fun c => c.cellTypeValue = CellType.value CellType.code &&
        c.sourceLines.any fun line => pyContains line (bannerMarker e.key)) = true
    · rw [if_pos hany] at hmd
      simp only [Option.some.injEq] at hmd
      exact hmd.symm
    · rw [if_neg hany] at hmd
      exact absurd hmd (by simp)

/-- Redirect target document holding a banner cell for the key `ex0`. -/
def c8target : List RawCell :=
  [⟨("code"), [("x = 1\n"), ("##  <[ ex0 ]> 解答セル (Answer cell)\n")]⟩,
   ⟨("markdown"), [("<[ ex0 ]> in a markdown cell does not count\n")]⟩]

theorem C8_redirect_stub_witness :
    keyRegexSafe (c7exercise.key) = true ∧
    createRedirectForm c7exercise c8target =
      some (submissionMetadata [(("ex0"), ("v"))] true) ∧
    (∃ c ∈ c8target, c.cellTypeValue = CellType.value CellType.code ∧
      ∃ line ∈ c.sourceLines, pyContains line (bannerMarker c7exercise.key) = true) :=
  ⟨rfl, rfl,
   (C8_redirect_stub c7exercise c8target ("ex1.ipynb") rfl rfl).1.mp rfl⟩

/-- A document that declares the `CONTENT` field twice, each marker followed
by one code cell. -/
def c10doc : List (CellType × String) :=
  [(CellType.markdown, ("***CONTENT_TYPE: CONTENT***")),
   (CellType.code, ("x = 1")),
   (CellType.markdown, ("***CONTENT_TYPE: CONTENT***")),
   (CellType.code, ("y = 2"))]

theorem C10_duplicate_marker_overwrites_witness :
    dictLookup [((some ("CONTENT")), [⟨CellType.code, ("y = 2")⟩])] (some ("CONTENT")) =
      specLastSegment ("CONTENT") none false c10doc ∧
    specLastSegment ("CONTENT") none false c10doc = some [⟨CellType.code, ("y = 2")⟩] :=
  ⟨C10_duplicate_marker_overwrites c10doc
    [((some ("CONTENT")), [⟨CellType.code, ("y = 2")⟩])] ("CONTENT") rfl, rfl⟩


/-! ### Claim C6: determinism and sensitivity of the hash-based version

`cleanup_exercise_masters` renews a version as
`hashlib.sha1(json.dumps(exercise_definition).encode()).hexdigest()`.  The
lemmas below establish that the serialized hash input is *injective* in the
`(content, submission_cell, student_tests)` triple: equal components give the
same digest, and changing any component changes the hashed byte string (the
digest then changes unless SHA-1 itself collides, which no program-level
argument can exclude). -/

theorem char_toNat_inj {a b : Char} (h : a.toNat = b.toNat) : a = b :=
  Char.ext (UInt32.toNat.inj h)

theorem char_valid_nat (c : Char) :
    c.toNat < 0xd800 ∨ (0xdfff < c.toNat ∧ c.toNat < 0x110000) := by
  have h := c.valid
  simp only [UInt32.isValidChar, Nat.isValidChar] at h
  exact h

theorem hexDig_inj {a b : Nat} (ha : a < 16) (hb : b < 16) (h : hexDig a = hexDig b) :
    a = b := by
  have key : ∀ x y : Fin 16, hexDig x.val = hexDig y.val → x = y := by decide
  exact congrArg Fin.val (key ⟨a, ha⟩ ⟨b, hb⟩ h)

theorem hex4_inj {m n : Nat} (hm : m < 65536) (hn : n < 65536) (h : hex4 m = hex4 n) :
    m = n := by
  simp only [hex4, List.cons.injEq, and_true] at h
  obtain ⟨e1, e2, e3, e4⟩ := h
  have d1 := hexDig_inj (Nat.mod_lt _ (by omega)) (Nat.mod_lt _ (by omega)) e1
  have d2 := hexDig_inj (Nat.mod_lt _ (by omega)) (Nat.mod_lt _ (by omega)) e2
  have d3 := hexDig_inj (Nat.mod_lt _ (by omega)) (Nat.mod_lt _ (by omega)) e3
  have d4 := hexDig_inj (Nat.mod_lt _ (by omega)) (Nat.mod_lt _ (by omega)) e4
  omega

theorem hex4_length (n : Nat) : (hex4 n).length = 4 := rfl

/-- The short-escape table of `escChar`, keyed by the escape letter. -/
def escShort (c : Char) : Option Char :=
  if c = '\\' then some '\\'
  else if c = '"' then some '"'
  else if c = '\x08' then some 'b'
  else if c = '\x0c' then some 'f'
  else if c = '\n' then some 'n'
  else if c = '\r' then some 'r'
  else if c = '\t' then some 't'
  else none

theorem escShort_cases {c k : Char} (h : escShort c = some k) :
    (c = '\\' ∧ k = '\\') ∨ (c = '"' ∧ k = '"') ∨ (c = '\x08' ∧ k = 'b') ∨
    (c = '\x0c' ∧ k = 'f') ∨ (c = '\n' ∧ k = 'n') ∨ (c = '\r' ∧ k = 'r') ∨
    (c = '\t' ∧ k = 't') := by
  unfold escShort at h
  split_ifs at h with h1 h2 h3 h4 h5 h6 h7
  · exact Or.inl ⟨h1, (Option.some.inj h).symm⟩
  · exact Or.inr (Or.inl ⟨h2, (Option.some.inj h).symm⟩)
  · exact Or.inr (Or.inr (Or.inl ⟨h3, (Option.some.inj h).symm⟩))
  · exact Or.inr (Or.inr (Or.inr (Or.inl ⟨h4, (Option.some.inj h).symm⟩)))
  · exact Or.inr (Or.inr (Or.inr (Or.inr (Or.inl ⟨h5, (Option.some.inj h).symm⟩))))
  · exact Or.inr (Or.inr (Or.inr (Or.inr (Or.inr (Or.inl ⟨h6, (Option.some.inj h).symm⟩)))))
  · exact Or.inr (Or.inr (Or.inr (Or.inr (Or.inr (Or.inr ⟨h7, (Option.some.inj h).symm⟩)))))

theorem escShort_inj {c1 c2 k : Char} (h1 : escShort c1 = some k)
    (h2 : escShort c2 = some k) : c1 = c2 := by
  rcases escShort_cases h1 with ⟨e1, f1⟩ | ⟨e1, f1⟩ | ⟨e1, f1⟩ | ⟨e1, f1⟩ | ⟨e1, f1⟩ |
      ⟨e1, f1⟩ | ⟨e1, f1⟩ <;>
    rcases escShort_cases h2 with ⟨e2, f2⟩ | ⟨e2, f2⟩ | ⟨e2, f2⟩ | ⟨e2, f2⟩ | ⟨e2, f2⟩ |
      ⟨e2, f2⟩ | ⟨e2, f2⟩ <;>
    subst e1 <;> subst e2 <;> subst f1 <;> simp_all

theorem escShort_ne_u {c k : Char} (h : escShort c = some k) : k ≠ 'u' := by
  unfold escShort at h
  split_ifs at h
  all_goals first
    | exact Option.noConfusion h
    | (injection h with h; subst h; decide)

theorem escChar_shape (c : Char) :
    (escShort c = none ∧ escChar c = [c] ∧ c ≠ '\\' ∧ c ≠ '"' ∧ 32 ≤ c.toNat ∧ c.toNat ≤ 126) ∨
    (∃ k, escShort c = some k ∧ escChar c = ['\\', k]) ∨
    (escShort c = none ∧ escChar c = '\\' :: 'u' :: hex4 c.toNat ∧ c.toNat < 65536) ∨
    (escShort c = none ∧
      escChar c = ('\\' :: 'u' :: hex4 (0xd800 + (c.toNat - 0x10000) / 0x400)) ++
        ('\\' :: 'u' :: hex4 (0xdc00 + (c.toNat - 0x10000) % 0x400)) ∧
      65536 ≤ c.toNat) := by
  by_cases h1 : c = '\\'
  · subst h1; exact Or.inr (Or.inl ⟨'\\', rfl, rfl⟩)
  by_cases h2 : c = '"'
  · subst h2; exact Or.inr (Or.inl ⟨'"', rfl, rfl⟩)
  by_cases h3 : c = '\x08'
  · subst h3; exact Or.inr (Or.inl ⟨'b', rfl, rfl⟩)
  by_cases h4 : c = '\x0c'
  · subst h4; exact Or.inr (Or.inl ⟨'f', rfl, rfl⟩)
  by_cases h5 : c = '\n'
  · subst h5; exact Or.inr (Or.inl ⟨'n', rfl, rfl⟩)
  by_cases h6 : c = '\r'
  · subst h6; exact Or.inr (Or.inl ⟨'r', rfl, rfl⟩)
  by_cases h7 : c = '\t'
  · subst h7; exact Or.inr (Or.inl ⟨'t', rfl, rfl⟩)
  have hshort : escShort c = none := by
    simp only [escShort, if_neg h1, if_neg h2, if_neg h3, if_neg h4, if_neg h5, if_neg h6,
      if_neg h7]
  by_cases h8 : (0x20 ≤ c.toNat && c.toNat ≤ 0x7e) = true
  · have hesc : escChar c = [c] := by
      simp only [escChar, if_neg h1, if_neg h2, if_neg h3, if_neg h4, if_neg h5, if_neg h6,
        if_neg h7, if_pos h8]
    simp only [Bool.and_eq_true, decide_eq_true_eq] at h8
    exact Or.inl ⟨hshort, hesc, h1, h2, h8.1, h8.2⟩
  by_cases h9 : c.toNat < 65536
  · have hesc : escChar c = '\\' :: 'u' :: hex4 c.toNat := by
      simp only [escChar, if_neg h1, if_neg h2, if_neg h3, if_neg h4, if_neg h5, if_neg h6,
        if_neg h7, if_neg h8, if_pos h9]
    exact Or.inr (Or.inr (Or.inl ⟨hshort, hesc, h9⟩))
  · have hesc : escChar c = ('\\' :: 'u' :: hex4 (0xd800 + (c.toNat - 0x10000) / 0x400)) ++
        ('\\' :: 'u' :: hex4 (0xdc00 + (c.toNat - 0x10000) % 0x400)) := by
      simp only [escChar, if_neg h1, if_neg h2, if_neg h3, if_neg h4, if_neg h5, if_neg h6,
        if_neg h7, if_neg h8, if_neg h9]
    exact Or.inr (Or.inr (Or.inr ⟨hshort, hesc, by omega⟩))

theorem escChar_det (c1 c2 : Char) (r1 r2 : List Char)
    (h : escChar c1 ++ r1 = escChar c2 ++ r2) : c1 = c2 ∧ r1 = r2 := by
  have hv1 := char_valid_nat c1
  have hv2 := char_valid_nat c2
  rcases escChar_shape c1 with ⟨hs1, he1, hne1, hnq1, hlo1, hhi1⟩ | ⟨k1, hs1, he1⟩ |
      ⟨hs1, he1, hb1⟩ | ⟨hs1, he1, hb1⟩ <;>
    rcases escChar_shape c2 with ⟨hs2, he2, hne2, hnq2, hlo2, hhi2⟩ | ⟨k2, hs2, he2⟩ |
      ⟨hs2, he2, hb2⟩ | ⟨hs2, he2, hb2⟩ <;>
    rw [he1, he2] at h <;>
    simp only [List.cons_append, List.append_assoc, List.nil_append, List.cons.injEq,
      eq_self_iff_true, true_and] at h
  -- 16 goals in row-major order: c1 ∈ {plain, short, uni, astral} × same for c2
  · exact h
  · exact absurd h.1 hne1
  · exact absurd h.1 hne1
  · exact absurd h.1 hne1
  · exact absurd h.1.symm hne2
  · obtain ⟨hk, hr⟩ := h
    subst hk
    exact ⟨escShort_inj hs1 hs2, hr⟩
  · exact absurd h.1 (escShort_ne_u hs1)
  · exact absurd h.1 (escShort_ne_u hs1)
  · exact absurd h.1.symm hne2
  · exact absurd h.1.symm (escShort_ne_u hs2)
  · obtain ⟨hq, hr⟩ := List.append_inj h (by rw [hex4_length, hex4_length])
    exact ⟨char_toNat_inj (hex4_inj hb1 hb2 hq), hr⟩
  · obtain ⟨hq, -⟩ := List.append_inj h (by rw [hex4_length, hex4_length])
    have := hex4_inj hb1 (by omega) hq
    omega
  · exact absurd h.1.symm hne2
  · exact absurd h.1.symm (escShort_ne_u hs2)
  · obtain ⟨hq, -⟩ := List.append_inj h (by rw [hex4_length, hex4_length])
    have := hex4_inj (by omega) hb2 hq
    omega
  · obtain ⟨hq, hrest⟩ := List.append_inj h (by rw [hex4_length, hex4_length])
    have hhi := hex4_inj (by omega) (by omega) hq
    simp only [List.cons.injEq, eq_self_iff_true, true_and] at hrest
    obtain ⟨hq2, hr2⟩ := List.append_inj hrest (by rw [hex4_length, hex4_length])
    have hlo := hex4_inj (by omega) (by omega) hq2
    exact ⟨char_toNat_inj (by omega), hr2⟩

theorem escChar_head (c : Char) : ∃ d rest, escChar c = d :: rest ∧ d ≠ '"' := by
  rcases escChar_shape c with ⟨-, he, -, hnq, -, -⟩ | ⟨k, hs, he⟩ | ⟨-, he, -⟩ | ⟨-, he, -⟩
  · exact ⟨c, [], he, hnq⟩
  · exact ⟨'\\', [k], he, by decide⟩
  · exact ⟨'\\', 'u' :: hex4 c.toNat, he, by decide⟩
  · refine ⟨'\\', 'u' :: hex4 (0xd800 + (c.toNat - 0x10000) / 0x400) ++
      ('\\' :: 'u' :: hex4 (0xdc00 + (c.toNat - 0x10000) % 0x400)), ?_, by decide⟩
    rw [he]
    simp [List.cons_append]

theorem escString_quote_det : ∀ (l1 l2 r1 r2 : List Char),
    escString l1 ++ '"' :: r1 = escString l2 ++ '"' :: r2 → l1 = l2 ∧ r1 = r2 := by
  intro l1
  induction l1 with
  | nil =>
    intro l2 r1 r2 h
    cases l2 with
    | nil => simpa [escString] using h
    | cons c cs =>
      obtain ⟨d, rest, he, hd⟩ := escChar_head c
      rw [escString, escString, he] at h
      simp only [List.nil_append, List.cons_append, List.append_assoc, List.cons.injEq] at h
      exact absurd h.1.symm hd
  | cons c cs ih =>
    intro l2 r1 r2 h
    cases l2 with
    | nil =>
      obtain ⟨d, rest, he, hd⟩ := escChar_head c
      rw [escString, escString, he] at h
      simp only [List.nil_append, List.cons_append, List.append_assoc, List.cons.injEq] at h
      exact absurd h.1 hd
    | cons c2 cs2 =>
      rw [escString, escString, List.append_assoc, List.append_assoc] at h
      obtain ⟨hc, hr⟩ := escChar_det c c2 _ _ h
      obtain ⟨hcs, hr2⟩ := ih cs2 r1 r2 hr
      exact ⟨by rw [hc, hcs], hr2⟩

theorem dumpStr_det (s1 s2 : String) (r1 r2 : List Char)
    (h : dumpStr s1 ++ r1 = dumpStr s2 ++ r2) : s1 = s2 ∧ r1 = r2 := by
  simp only [dumpStr, List.cons_append, List.append_assoc, List.singleton_append,
    List.cons.injEq, true_and] at h
  obtain ⟨hd, hr⟩ := escString_quote_det _ _ _ _ h
  exact ⟨String.ext hd, hr⟩

/-- The part of a `json.dumps` array after the opening bracket, recursively:
items separated by `", "`, closed by `]`. -/
def sepItems (f : α → List Char) : List α → List Char
  | [] => [']']
  | a :: [] => f a ++ [']']
  | a :: b :: t => f a ++ ',' :: ' ' :: sepItems f (b :: t)

theorem dumpArr_eq_sepItems (f : α → List Char) (l : List α) :
    dumpArr (l.map f) = '[' :: sepItems f l := by
  induction l with
  | nil => rfl
  | cons a t ih =>
    cases t with
    | nil => simp [dumpArr, sepItems, List.intercalate]
    | cons b t2 =>
      have hsep : ((", ").data) = [',', ' '] := rfl
      simp only [dumpArr, List.map_cons, List.intercalate, List.intersperse_cons₂,
        List.flatten_cons, hsep, List.cons_append, List.nil_append, List.append_assoc,
        List.cons.injEq, true_and] at ih ⊢
      rw [sepItems]
      rw [ih]

theorem sepItems_det (f : α → List Char)
    (hdet : ∀ (a b : α) (r1 r2 : List Char), f a ++ r1 = f b ++ r2 → a = b ∧ r1 = r2)
    (hhead : ∀ a : α, ∃ d rest, f a = d :: rest ∧ d ≠ ',' ∧ d ≠ ']') :
    ∀ (l1 l2 : List α) (r1 r2 : List Char),
      sepItems f l1 ++ r1 = sepItems f l2 ++ r2 → l1 = l2 ∧ r1 = r2 := by
  intro l1
  induction l1 with
  | nil =>
    intro l2 r1 r2 h
    cases l2 with
    | nil => simpa [sepItems] using h
    | cons b t =>
      obtain ⟨d, rest, he, hd1, hd2⟩ := hhead b
      cases t with
      | nil =>
        rw [sepItems, sepItems, he] at h
        simp only [List.cons_append, List.append_assoc, List.singleton_append,
          List.cons.injEq] at h
        exact absurd h.1.symm hd2
      | cons b2 t2 =>
        rw [sepItems, sepItems, he] at h
        simp only [List.cons_append, List.append_assoc, List.singleton_append,
          List.cons.injEq] at h
        exact absurd h.1.symm hd2
  | cons a t ih =>
    intro l2 r1 r2 h
    cases l2 with
    | nil =>
      obtain ⟨d, rest, he, hd1, hd2⟩ := hhead a
      cases t with
      | nil =>
        rw [sepItems, sepItems, he] at h
        simp only [List.cons_append, List.append_assoc, List.singleton_append,
          List.cons.injEq] at h
        exact absurd h.1 hd2
      | cons a2 t2 =>
        rw [sepItems, sepItems, he] at h
        simp only [List.cons_append, List.append_assoc, List.singleton_append,
          List.cons.injEq] at h
        exact absurd h.1 hd2
    | cons b t2 =>
      cases t with
      | nil =>
        cases t2 with
        | nil =>
          rw [sepItems, sepItems, List.append_assoc, List.append_assoc] at h
          obtain ⟨hab, hr⟩ := hdet a b _ _ h
          simp only [List.singleton_append, List.cons.injEq, true_and] at hr
          exact ⟨by rw [hab], hr⟩
        | cons b2 t3 =>
          rw [sepItems, sepItems, List.append_assoc, List.append_assoc] at h
          obtain ⟨hab, hr⟩ := hdet a b _ _ h
          simp only [List.singleton_append, List.cons_append, List.cons.injEq] at hr
          exact absurd hr.1 (by decide)
      | cons a2 t3 =>
        cases t2 with
        | nil =>
          rw [sepItems, sepItems, List.append_assoc, List.append_assoc] at h
          obtain ⟨hab, hr⟩ := hdet a b _ _ h
          simp only [List.singleton_append, List.cons_append, List.cons.injEq] at hr
          exact absurd hr.1 (by decide)
        | cons b2 t4 =>
          rw [sepItems, sepItems, List.append_assoc, List.append_assoc] at h
          obtain ⟨hab, hr⟩ := hdet a b _ _ h
          simp only [List.cons_append, List.cons.injEq, true_and] at hr
          obtain ⟨ht, hr2⟩ := ih (b2 :: t4) r1 r2 hr
          exact ⟨by rw [hab, ht], hr2⟩

set_option maxHeartbeats 1000000 in
theorem splitLinesKeepAux_flatten (acc l : List Char) :
    ((splitLinesKeepAux acc l).map String.data).flatten = acc.reverse ++ l := by
  induction acc, l using splitLinesKeepAux.induct with
  | case1 acc he =>
    rw [List.isEmpty_iff] at he
    subst he
    rfl
  | case2 acc he =>
    rw [splitLinesKeepAux.eq_1, if_neg he]
    simp
  | case3 acc rest ih =>
    rw [splitLinesKeepAux.eq_2]
    simp only [List.map_cons, List.flatten_cons, ih]
    simp [List.append_assoc]
  | case4 acc c rest hne hbr ih =>
    rw [splitLinesKeepAux.eq_3 _ _ _ hne, if_pos hbr]
    simp only [List.map_cons, List.flatten_cons, ih]
    simp [List.append_assoc]
  | case5 acc c rest hne hbr ih =>
    rw [splitLinesKeepAux.eq_3 _ _ _ hne, if_neg hbr, ih]
    simp [List.append_assoc]

theorem pyJoin_splitKeep (s : String) : pyJoin (pySplitLinesKeep s) = s := by
  apply String.ext
  simpa [pyJoin, pySplitLinesKeep] using splitLinesKeepAux_flatten [] s.data

theorem pySplitLinesKeep_inj {s1 s2 : String}
    (h : pySplitLinesKeep s1 = pySplitLinesKeep s2) : s1 = s2 := by
  have := congrArg pyJoin h
  rwa [pyJoin_splitKeep, pyJoin_splitKeep] at this

theorem dumpStr_head (s : String) :
    ∃ d rest, dumpStr s = d :: rest ∧ d ≠ ',' ∧ d ≠ ']' :=
  ⟨'"', _, rfl, by decide, by decide⟩

theorem dumpStrList_det (l1 l2 : List String) (r1 r2 : List Char)
    (h : sepItems dumpStr l1 ++ r1 = sepItems dumpStr l2 ++ r2) : l1 = l2 ∧ r1 = r2 :=
  sepItems_det dumpStr dumpStr_det dumpStr_head l1 l2 r1 r2 h

theorem dumpCell_det (c1 c2 : Cell) (r1 r2 : List Char)
    (h : dumpCell c1 ++ r1 = dumpCell c2 ++ r2) : c1 = c2 ∧ r1 = r2 := by
  obtain ⟨t1, s1⟩ := c1
  obtain ⟨t2, s2⟩ := c2
  cases t1 <;> cases t2 <;>
    simp only [dumpCell, dumpArr_eq_sepItems dumpStr, List.append_assoc, List.cons_append,
      List.singleton_append, List.nil_append, List.cons.injEq, true_and] at h
  -- 9 goals: code/markdown/raw × code/markdown/raw
  · obtain ⟨hl, hr⟩ := dumpStrList_det _ _ _ _ h
    simp only [List.cons.injEq, true_and] at hr
    exact ⟨by rw [pySplitLinesKeep_inj hl], hr⟩
  · exact absurd h.1 (by decide)
  · exact absurd h.1 (by decide)
  · exact absurd h.1 (by decide)
  · obtain ⟨hl, hr⟩ := dumpStrList_det _ _ _ _ h
    simp only [List.cons.injEq, true_and] at hr
    exact ⟨by rw [pySplitLinesKeep_inj hl], hr⟩
  · exact absurd h.1 (by decide)
  · exact absurd h.1 (by decide)
  · exact absurd h.1 (by decide)
  · obtain ⟨hl, hr⟩ := dumpStrList_det _ _ _ _ h
    simp only [List.cons.injEq, true_and] at hr
    exact ⟨by rw [pySplitLinesKeep_inj hl], hr⟩

theorem dumpCell_head (c : Cell) :
    ∃ d rest, dumpCell c = d :: rest ∧ d ≠ ',' ∧ d ≠ ']' := by
  obtain ⟨t, s⟩ := c
  cases t
  · exact ⟨'\x7b', _, rfl, by decide, by decide⟩
  · exact ⟨'\x7b', _, rfl, by decide, by decide⟩
  · exact ⟨'\x7b', _, rfl, by decide, by decide⟩

theorem dumpCellArr_det (l1 l2 : List Cell) (r1 r2 : List Char)
    (h : dumpCellArr l1 ++ r1 = dumpCellArr l2 ++ r2) : l1 = l2 ∧ r1 = r2 := by
  unfold dumpCellArr at h
  rw [dumpArr_eq_sepItems, dumpArr_eq_sepItems] at h
  simp only [List.cons_append, List.cons.injEq, true_and] at h
  exact sepItems_det dumpCell dumpCell_det dumpCell_head l1 l2 r1 r2 h

theorem versionHashInput_inj (c1 : List Cell) (s1 : Cell) (t1 : List Cell)
    (c2 : List Cell) (s2 : Cell) (t2 : List Cell)
    (h : versionHashInput c1 s1 t1 = versionHashInput c2 s2 t2) :
    c1 = c2 ∧ s1 = s2 ∧ t1 = t2 := by
  have hd := congrArg String.data h
  simp only [versionHashInput, List.append_assoc, List.cons_append, List.nil_append,
    List.singleton_append, List.cons.injEq, true_and] at hd
  obtain ⟨hc, hd⟩ := dumpCellArr_det _ _ _ _ hd
  simp only [List.cons_append, List.append_assoc, List.cons.injEq, true_and] at hd
  obtain ⟨hs, hd⟩ := dumpCell_det _ _ _ _ hd
  simp only [List.cons_append, List.append_assoc, List.cons.injEq, true_and] at hd
  obtain ⟨ht, -⟩ := dumpCellArr_det _ _ _ _ hd
  exact ⟨hc, hs, ht⟩

/-- C6: the hash-based version is the SHA-1 digest over the canonical JSON
encoding of the `{content, submission_cell, student_tests}` triple:
records with equal components receive the same renewed version, and the
serialized hash input is injective in the triple, so changing any one
component changes the hashed byte string. -/
theorem C6_version_hash :
    (∀ e1 e2 : ExerciseRec, e1.content = e2.content →
        submissionCell e1 = submissionCell e2 → e1.studentTests = e2.studentTests →
        renewVersion e1 = renewVersion e2) ∧
    (∀ (c1 : List Cell) (s1 : Cell) (t1 : List Cell) (c2 : List Cell) (s2 : Cell)
        (t2 : List Cell),
        versionHashInput c1 s1 t1 = versionHashInput c2 s2 t2 ↔
          (c1 = c2 ∧ s1 = s2 ∧ t1 = t2)) ∧
    (∀ e : ExerciseRec, renewVersion e =
        sha1Hex (utf8Bytes (versionHashInput e.content (submissionCell e) e.studentTests))) := by
  refine ⟨?_, ?_, fun e => rfl⟩
  · intro e1 e2 hc hs ht
    unfold renewVersion
    rw [hc, hs, ht]
  · intro c1 s1 t1 c2 s2 t2
    constructor
    · exact versionHashInput_inj c1 s1 t1 c2 s2 t2
    · rintro ⟨h1, h2, h3⟩
      rw [h1, h2, h3]

theorem C6_version_hash_witness :
    renewVersion ⟨("k"), ("d1"), ("v1"), ("t1"), [], ⟨CellType.code, ("x = 1")⟩,
        [], [], [], [], []⟩ =
      renewVersion ⟨("k"), ("d2"), ("v2"), ("t2"), [], ⟨CellType.code, ("x = 1")⟩,
        [], [], [], [], []⟩ ∧
    (versionHashInput [] ⟨CellType.code, ("a")⟩ [] =
        versionHashInput [] ⟨CellType.code, ("b")⟩ [] ↔
      (([] : List Cell) = [] ∧ (⟨CellType.code, ("a")⟩ : Cell) = ⟨CellType.code, ("b")⟩ ∧
        ([] : List Cell) = [])) :=
  ⟨C6_version_hash.1 _ _ rfl rfl rfl,
   C6_version_hash.2.1 [] ⟨CellType.code, ("a")⟩ [] [] ⟨CellType.code, ("b")⟩ []⟩

end Plags
